import Mathlib

/-!
Verification of the kiro.rs credential pool manager.

This file shallowly embeds the credential data model (`src/kiro/model/credentials.rs`),
the SQLite-backed store (`src/kiro/db.rs`), the token expiry and refresh-validation
logic and the multi-credential pool manager (`src/kiro/token_manager.rs`), and the
admin error classification (`src/admin/service.rs`, `src/admin/error.rs`).

Modelling conventions:
* Machine integers (`u32`, `u64`) are `Nat`; none of the embedded code paths overflow.
* Wall-clock instants are `Int` (seconds).  `expires_at` is kept as the stored
  `Option String` and RFC-3339 parsing is an explicit parameter
  `parse : String → Option Int`, mirroring `DateTime::parse_from_rfc3339(...).ok()`.
  `disabled_at` values are written and compared only by the store itself (always
  through `to_rfc3339` of a `Utc` instant, whose lexicographic string order agrees
  with chronological order), so they are embedded directly as `Option Int`.
* The SQLite table is a list of rows kept in rowid (= id) insertion order;
  `ORDER BY priority ASC` is embedded as a stable insertion sort by priority,
  matching SQLite's scan order for this schema (rowid order on ties).
* HTTP calls are external: the refresh client's response is a parameter, and the
  pool manager's `try_ensure_token` outcome inside `acquire_context` is an oracle.
* The informational balance columns (`subscription_title`, `current_usage`, ...)
  are floating-point display data touched by no claim and are omitted from the row.
-/

/-- Credential record, from `KiroCredentials` in `src/kiro/model/credentials.rs`
    plus the store-maintained columns of `src/kiro/db.rs` (`disabled_at`).
    In the store model `id` is always assigned, so it is a plain `Nat` here. -/
structure KiroCredentials where
  id : Nat
  refresh_token : Option String
  access_token : Option String
  expires_at : Option String
  auth_method : Option String
  client_id : Option String
  client_secret : Option String
  profile_arn : Option String
  machine_id : Option String
  priority : Nat
  disabled : Bool
  disabled_at : Option Int
  failure_count : Nat
deriving DecidableEq, Repr

/-- `is_token_expiring_within` from `src/kiro/token_manager.rs` (lines 85-94):
    parse `expires_at` and compare with `now + minutes`; `none` when the field is
    absent or unparseable. -/
def is_token_expiring_within (parse : String → Option Int) (now : Int)
    (c : KiroCredentials) (minutes : Int) : Option Bool :=
  match c.expires_at with
  | none => none
  | some s =>
    match parse s with
    | none => none
    | some expires => some (decide (expires ≤ now + minutes * 60))

/-- `is_token_expired` (token_manager.rs lines 96-99): within 5 minutes, defaulting
    to `true` when `expires_at` is absent or unparseable. -/
def is_token_expired (parse : String → Option Int) (now : Int)
    (c : KiroCredentials) : Bool :=
  (is_token_expiring_within parse now c 5).getD true

/-- `is_token_expiring_soon` (token_manager.rs lines 101-104): within 10 minutes,
    defaulting to `false`. -/
def is_token_expiring_soon (parse : String → Option Int) (now : Int)
    (c : KiroCredentials) : Bool :=
  (is_token_expiring_within parse now c 10).getD false

/-- Substring test: Rust `str::contains` on a literal pattern. -/
def strContains (s pat : String) : Bool :=
  decide (pat.toList <:+: s.toList)

/-- Suffix test: Rust `str::ends_with`. -/
def strEndsWith (s pat : String) : Bool :=
  decide (pat.toList <:+ s.toList)

/-- `validate_refresh_token` (token_manager.rs lines 107-127): reject an absent,
    empty, short (< 100 chars) or `...`-marked refresh token before any HTTP call. -/
def validate_refresh_token (c : KiroCredentials) : Except String Unit :=
  match c.refresh_token with
  | none => Except.error "缺少 refreshToken"
  | some rt =>
    if rt.isEmpty then Except.error "refreshToken 为空"
    else if rt.length < 100 || strEndsWith rt "..." || strContains rt "..." then
      Except.error "refreshToken 已被截断"
    else Except.ok ()

/-- ASCII lowering: Rust `str::to_lowercase` restricted to the basic latin
    letters, which is all the dispatch below compares against. -/
def strToLower (s : String) : String :=
  String.mk (s.toList.map Char.toLower)

/-- The two upstream refresh protocols of token_manager.rs. -/
inductive AuthProtocol where
  | social
  | idc
deriving DecidableEq, Repr

/-- Protocol dispatch in `refresh_token` (token_manager.rs lines 137-143):
    lowercase `auth_method` (defaulting to "social") and match
    "idc" | "builder-id" against it. -/
def chooseProtocol (c : KiroCredentials) : AuthProtocol :=
  let am := strToLower (c.auth_method.getD "social")
  if am = "idc" ∨ am = "builder-id" then AuthProtocol.idc else AuthProtocol.social

/-- `refresh_token` (token_manager.rs lines 130-144) up to the point where the
    network is touched: pre-validate, then dispatch to a protocol.  The actual
    HTTP exchange is external to the embedding; an `Except.ok p` value means the
    protocol call `p` proceeds. -/
def refresh_token (c : KiroCredentials) : Except String AuthProtocol :=
  match validate_refresh_token c with
  | Except.error e => Except.error e
  | Except.ok _ => Except.ok (chooseProtocol c)

/-- Ordering of rows by the store-assigned id (the SQLite rowid order in which the
    table is scanned). -/
def idLt (a b : KiroCredentials) : Prop := a.id < b.id

/-- The (priority, id) lexicographic order the spec prescribes for `load_all`. -/
def lexLt (a b : KiroCredentials) : Prop :=
  a.priority < b.priority ∨ (a.priority = b.priority ∧ a.id < b.id)

/-- Comparison used by `ORDER BY priority ASC`. -/
def priorityLE (a b : KiroCredentials) : Prop := a.priority ≤ b.priority

instance : DecidableRel idLt := fun a b => Nat.decLt a.id b.id

instance : DecidableRel lexLt := fun a b => by
  unfold lexLt; infer_instance

instance : DecidableRel priorityLE := fun a b => Nat.decLe a.priority b.priority

/-- In-memory state of the SQLite `credentials` table (`src/kiro/db.rs`): the rows
    in rowid order, plus the next AUTOINCREMENT id. -/
structure DbState where
  rows : List KiroCredentials
  nextId : Nat
deriving DecidableEq, Repr

/-- Well-formedness the real store guarantees: ids strictly increase in scan order
    (PRIMARY KEY AUTOINCREMENT) and are below the next id to be assigned. -/
def DbWF (db : DbState) : Prop :=
  db.rows.Pairwise idLt ∧ ∀ c ∈ db.rows, c.id < db.nextId

instance : DecidablePred DbWF := fun db => by
  unfold DbWF; infer_instance

/-- Condition of the `try_recover_disabled` UPDATE's WHERE clause
    (`disabled = 1 AND disabled_at IS NOT NULL AND disabled_at < cutoff`). -/
def recoverCond (cutoff : Int) (c : KiroCredentials) : Bool :=
  c.disabled &&
    match c.disabled_at with
    | some t => decide (t < cutoff)
    | none => false

/-- The SET clause of `try_recover_disabled`. -/
def recoverRow (c : KiroCredentials) : KiroCredentials :=
  { c with disabled := false, disabled_at := none, failure_count := 0 }

/-- One pass of the `try_recover_disabled` UPDATE over the table: rewrite each
    matching row and count the affected rows. -/
def recoverRows (cutoff : Int) : List KiroCredentials → List KiroCredentials × Nat
  | [] => ([], 0)
  | c :: cs =>
    let rest := recoverRows cutoff cs
    if recoverCond cutoff c then (recoverRow c :: rest.1, rest.2 + 1)
    else (c :: rest.1, rest.2)

namespace Database

/-- `Database::load_credentials` (db.rs lines 83-124): `ORDER BY priority ASC`,
    which SQLite evaluates as a sort stable in rowid order. -/
def load_credentials (db : DbState) : List KiroCredentials :=
  List.insertionSort priorityLE db.rows

/-- `Database::insert_credential` (db.rs lines 127-158): append with a fresh id,
    returning the assigned id. -/
def insert_credential (db : DbState) (cred : KiroCredentials) : DbState × Nat :=
  ({ rows := db.rows ++ [{ cred with id := db.nextId }], nextId := db.nextId + 1 },
   db.nextId)

/-- `Database::update_credential` (db.rs lines 161-196): full-row replace keyed by
    `cred.id`; reports whether a row was affected. -/
def update_credential (db : DbState) (cred : KiroCredentials) : DbState × Bool :=
  ({ db with
     rows := db.rows.map fun r => if r.id = cred.id then { cred with id := r.id } else r },
   db.rows.any fun r => r.id == cred.id)

/-- `Database::delete_credential` (db.rs lines 199-203). -/
def delete_credential (db : DbState) (id : Nat) : DbState × Bool :=
  ({ db with rows := db.rows.filter fun r => r.id ≠ id },
   db.rows.any fun r => r.id == id)

/-- `Database::get_credential` (db.rs lines 206-247): `WHERE id = ?` on the
    primary key. -/
def get_credential (db : DbState) (id : Nat) : Option KiroCredentials :=
  db.rows.find? fun r => r.id == id

/-- `Database::count_credentials` (db.rs lines 250-255). -/
def count_credentials (db : DbState) : Nat := db.rows.length

/-- `Database::count_available` (db.rs lines 486-494): `WHERE disabled = 0`. -/
def count_available (db : DbState) : Nat :=
  db.rows.countP fun r => !r.disabled

/-- `Database::set_disabled` (db.rs lines 290-306): set the flag and stamp or
    clear `disabled_at`; `failure_count` is untouched. -/
def set_disabled (db : DbState) (id : Nat) (disabled : Bool) (now : Int) :
    DbState × Bool :=
  ({ db with
     rows := db.rows.map fun r =>
       if r.id = id then
         { r with disabled := disabled,
                  disabled_at := if disabled then some now else none }
       else r },
   db.rows.any fun r => r.id == id)

/-- `Database::set_priority` (db.rs lines 309-320). -/
def set_priority (db : DbState) (id : Nat) (priority : Nat) : DbState × Bool :=
  ({ db with
     rows := db.rows.map fun r => if r.id = id then { r with priority := priority } else r },
   db.rows.any fun r => r.id == id)

/-- `Database::increment_failure_count` (db.rs lines 323-339): UPDATE then SELECT
    the new count; `none` models the `QueryReturnedNoRows` error for a missing id. -/
def increment_failure_count (db : DbState) (id : Nat) : DbState × Option Nat :=
  ({ db with
     rows := db.rows.map fun r =>
       if r.id = id then { r with failure_count := r.failure_count + 1 } else r },
   (db.rows.find? fun r => r.id == id).map fun r => r.failure_count + 1)

/-- `Database::reset_failure_count` (db.rs lines 342-353). -/
def reset_failure_count (db : DbState) (id : Nat) : DbState × Bool :=
  ({ db with
     rows := db.rows.map fun r => if r.id = id then { r with failure_count := 0 } else r },
   db.rows.any fun r => r.id == id)

/-- `Database::reset_and_enable` (db.rs lines 356-367):
    `failure_count = 0, disabled = 0, disabled_at = NULL` in one statement. -/
def reset_and_enable (db : DbState) (id : Nat) : DbState × Bool :=
  ({ db with
     rows := db.rows.map fun r =>
       if r.id = id then
         { r with failure_count := 0, disabled := false, disabled_at := none }
       else r },
   db.rows.any fun r => r.id == id)

/-- `Database::try_recover_disabled` (db.rs lines 372-391): cutoff is
    `now − cooldown_seconds`; returns the affected-row count. -/
def try_recover_disabled (db : DbState) (now cooldown : Int) : DbState × Nat :=
  let r := recoverRows (now - cooldown) db.rows
  ({ db with rows := r.1 }, r.2)

/-- `Database::get_highest_priority_available` (db.rs lines 394-437):
    `WHERE disabled = 0 ORDER BY priority ASC LIMIT 1`. -/
def get_highest_priority_available (db : DbState) : Option KiroCredentials :=
  (List.insertionSort priorityLE (db.rows.filter fun r => !r.disabled)).head?

/-- `Database::get_next_available` (db.rs lines 440-483):
    `WHERE disabled = 0 AND id != ? ORDER BY priority ASC LIMIT 1`. -/
def get_next_available (db : DbState) (excludeId : Nat) : Option KiroCredentials :=
  (List.insertionSort priorityLE
    (db.rows.filter fun r => !r.disabled && r.id != excludeId)).head?

/-- `Database::client_id_exists` (db.rs lines 514-522). -/
def client_id_exists (db : DbState) (cid : String) : Bool :=
  db.rows.any fun r => r.client_id == some cid

end Database

/-- Response of a successful upstream refresh call, as consumed by
    `refresh_social_token` / `refresh_idc_token` (token_manager.rs lines 196-214
    and 277-291): a mandatory new access token plus optional replacements.  The
    `expires_at` field carries the already-formatted `now + expires_in` instant. -/
structure RefreshResp where
  access_token : String
  refresh_token : Option String
  profile_arn : Option String
  expires_at : Option String
deriving DecidableEq, Repr

/-- How `refresh_social_token` / `refresh_idc_token` build the new credential
    snapshot from the old one: clone, then overwrite the returned fields. -/
def applyRefreshResp (c : KiroCredentials) (r : RefreshResp) : KiroCredentials :=
  { c with
    access_token := some r.access_token,
    refresh_token := match r.refresh_token with
      | some t => some t
      | none => c.refresh_token,
    profile_arn := match r.profile_arn with
      | some p => some p
      | none => c.profile_arn,
    expires_at := match r.expires_at with
      | some e => some e
      | none => c.expires_at }

/-- Oracle for one `try_ensure_token` attempt inside `acquire_context`.  The HTTP
    refresh is external, so its observable effects are parameters: `resp = some r`
    means the locked section refreshed and persisted `applyRefreshResp` of the
    re-read row via `update_credential`; `ok` tells whether the attempt returned a
    `CallContext` (a refresh failure, a still-expired result, or a missing access
    token all yield `ok = false`). -/
structure EnsureOutcome where
  resp : Option RefreshResp
  ok : Bool

/-- In-memory state of `MultiTokenManager` (token_manager.rs lines 416-425): the
    store plus the `current_id` pointer.  The refresh lock serializes the locked
    sections and carries no data. -/
structure PoolState where
  db : DbState
  current_id : Nat
deriving DecidableEq, Repr

namespace MultiTokenManager

/-- `MultiTokenManager::new` (token_manager.rs lines 456-474): start from the
    highest-priority enabled credential, or the 0 sentinel. -/
def new (db : DbState) : PoolState :=
  { db := db,
    current_id :=
      match Database.get_highest_priority_available db with
      | some c => c.id
      | none => 0 }

/-- `MultiTokenManager::report_success` (token_manager.rs lines 682-688). -/
def report_success (s : PoolState) (id : Nat) : PoolState :=
  { s with db := (Database.reset_failure_count s.db id).1 }

/-- `MultiTokenManager::report_failure` (token_manager.rs lines 697-734):
    increment the count; at the threshold disable the credential and repoint
    `current_id` at the best enabled credential.  Returns whether enabled
    credentials remain. -/
def report_failure (s : PoolState) (now : Int) (id : Nat) : PoolState × Bool :=
  match Database.increment_failure_count s.db id with
  | (db1, none) => ({ s with db := db1 }, Database.count_available db1 > 0)
  | (db1, some cnt) =>
    if cnt ≥ 3 then
      let db2 := (Database.set_disabled db1 id true now).1
      match Database.get_highest_priority_available db2 with
      | some next =>
        ({ db := db2, current_id := next.id }, Database.count_available db2 > 0)
      | none => ({ s with db := db2 }, false)
    else ({ s with db := db1 }, Database.count_available db1 > 0)

/-- `MultiTokenManager::switch_to_next` (token_manager.rs lines 739-757). -/
def switch_to_next (s : PoolState) : PoolState × Bool :=
  match Database.get_next_available s.db s.current_id with
  | some next => ({ s with current_id := next.id }, true)
  | none =>
    (s,
     match Database.get_credential s.db s.current_id with
     | some c => !c.disabled
     | none => false)

/-- `MultiTokenManager::switch_to_next_by_priority` (token_manager.rs lines
    583-592), the failure path inside `acquire_context`. -/
def switch_to_next_by_priority (s : PoolState) : PoolState :=
  match Database.get_next_available s.db s.current_id with
  | some c => { s with current_id := c.id }
  | none => s

/-- `MultiTokenManager::select_highest_priority` (token_manager.rs lines 598-614). -/
def select_highest_priority (s : PoolState) : PoolState :=
  match Database.get_highest_priority_available s.db with
  | some best => if best.id ≠ s.current_id then { s with current_id := best.id } else s
  | none => s

/-- `MultiTokenManager::set_disabled` (token_manager.rs lines 805-813): enabling
    routes through `reset_and_enable`, disabling through the store's
    `set_disabled`. -/
def set_disabled (s : PoolState) (id : Nat) (disabled : Bool) (now : Int) : PoolState :=
  if disabled then { s with db := (Database.set_disabled s.db id true now).1 }
  else { s with db := (Database.reset_and_enable s.db id).1 }

/-- `MultiTokenManager::set_priority` (token_manager.rs lines 818-824). -/
def set_priority (s : PoolState) (id : Nat) (priority : Nat) : PoolState :=
  select_highest_priority { s with db := (Database.set_priority s.db id priority).1 }

/-- `MultiTokenManager::reset_and_enable` (token_manager.rs lines 829-832). -/
def reset_and_enable (s : PoolState) (id : Nat) : PoolState :=
  { s with db := (Database.reset_and_enable s.db id).1 }

/-- `MultiTokenManager::add_credential` (token_manager.rs lines 837-848): insert;
    if the pool now holds exactly one credential, point `current_id` at it. -/
def add_credential (s : PoolState) (cred : KiroCredentials) : PoolState × Nat :=
  let r := Database.insert_credential s.db cred
  let s1 : PoolState := { s with db := r.1 }
  ((if Database.count_credentials r.1 = 1 then { s1 with current_id := r.2 } else s1),
   r.2)

/-- `MultiTokenManager::delete_credential` (token_manager.rs lines 853-870):
    delete, and re-select only when the deleted row was current. -/
def delete_credential (s : PoolState) (id : Nat) : PoolState × Bool :=
  let need_switch := id = s.current_id
  let r := Database.delete_credential s.db id
  if r.2 then
    let s1 : PoolState := { s with db := r.1 }
    ((if need_switch then select_highest_priority s1 else s1), true)
  else ({ s with db := r.1 }, false)

/-- The `current_id`-mutex block at the head of each `acquire_context` iteration
    (token_manager.rs lines 533-564): take the current credential if it exists
    and is enabled, otherwise re-select the best enabled one; `none` is the
    "all disabled" bail-out. -/
def selectCred (s : PoolState) : Option (Nat × KiroCredentials × PoolState) :=
  match Database.get_credential s.db s.current_id with
  | some c =>
    if !c.disabled then some (s.current_id, c, s)
    else
      match Database.get_highest_priority_available s.db with
      | some c2 => some (c2.id, c2, { s with current_id := c2.id })
      | none => none
  | none =>
    match Database.get_highest_priority_available s.db with
    | some c2 => some (c2.id, c2, { s with current_id := c2.id })
    | none => none

/-- The retry loop of `acquire_context` (token_manager.rs lines 524-579), with the
    per-attempt `try_ensure_token` outcome supplied by `oracle`.  Only the state
    effects matter here; the produced `CallContext` or error is dropped. -/
def acquireGo (oracle : Nat → EnsureOutcome) : Nat → PoolState → PoolState
  | 0, s => s
  | Nat.succ fuel, s =>
    match selectCred s with
    | none => s
    | some (id, _, s1) =>
      let o := oracle fuel
      let s2 : PoolState :=
        match o.resp with
        | some r =>
          match Database.get_credential s1.db id with
          | some cur =>
            { s1 with db := (Database.update_credential s1.db (applyRefreshResp cur r)).1 }
          | none => s1
        | none => s1
      if o.ok then s2 else acquireGo oracle fuel (switch_to_next_by_priority s2)

/-- `MultiTokenManager::acquire_context` (token_manager.rs lines 515-580): recover
    cooled-down credentials, then try at most `total` credentials. -/
def acquire_context (now : Int) (oracle : Nat → EnsureOutcome) (s : PoolState) :
    PoolState :=
  let db1 := (Database.try_recover_disabled s.db now 300).1
  acquireGo oracle (Database.count_credentials db1) { s with db := db1 }

end MultiTokenManager

/-- The credential record `AdminService::add_credential` builds before inserting
    (src/admin/service.rs lines 250-268): fresh state, caller-supplied identity
    fields.  The placeholder id 0 is replaced by the store on insert. -/
def adminBuildCredential (rt : String) (am ci cs mid : Option String) (pr : Nat) :
    KiroCredentials :=
  { id := 0,
    refresh_token := some rt,
    access_token := none,
    expires_at := none,
    auth_method := am,
    client_id := ci,
    client_secret := cs,
    profile_arn := none,
    machine_id := mid,
    priority := pr,
    disabled := false,
    disabled_at := none,
    failure_count := 0 }

/-- The public pool-manager operations, each with the inputs its call site
    supplies.  `addCredential` carries the admin request fields, since
    `AdminService::add_credential` is the one caller of the manager's add. -/
inductive PoolOp where
  | reportSuccess (id : Nat)
  | reportFailure (id : Nat)
  | switchToNext
  | setDisabled (id : Nat) (flag : Bool)
  | setPriority (id : Nat) (p : Nat)
  | resetAndEnable (id : Nat)
  | addCredential (rt : String) (am ci cs mid : Option String) (pr : Nat)
  | deleteCredential (id : Nat)
  | acquireContext (oracle : Nat → EnsureOutcome)

/-- State effect of one public operation at wall-time `now`. -/
def applyOp (now : Int) : PoolOp → PoolState → PoolState
  | PoolOp.reportSuccess id, s => MultiTokenManager.report_success s id
  | PoolOp.reportFailure id, s => (MultiTokenManager.report_failure s now id).1
  | PoolOp.switchToNext, s => (MultiTokenManager.switch_to_next s).1
  | PoolOp.setDisabled id flag, s => MultiTokenManager.set_disabled s id flag now
  | PoolOp.setPriority id p, s => MultiTokenManager.set_priority s id p
  | PoolOp.resetAndEnable id, s => MultiTokenManager.reset_and_enable s id
  | PoolOp.addCredential rt am ci cs mid pr, s =>
    (MultiTokenManager.add_credential s (adminBuildCredential rt am ci cs mid pr)).1
  | PoolOp.deleteCredential id, s => (MultiTokenManager.delete_credential s id).1
  | PoolOp.acquireContext oracle, s => MultiTokenManager.acquire_context now oracle s

/-- Invariant 5 of the spec: `current_id` names an existing row or is the 0
    sentinel. -/
def current_id_ok (s : PoolState) : Prop :=
  s.current_id = 0 ∨ ∃ c ∈ s.db.rows, c.id = s.current_id

instance : DecidablePred current_id_ok := fun s => by
  unfold current_id_ok; infer_instance

/-- Invariant 4 of the spec: a failure count at the threshold forces `disabled`. -/
def failure_disabled_inv (s : PoolState) : Prop :=
  ∀ c ∈ s.db.rows, 3 ≤ c.failure_count → c.disabled = true

instance : DecidablePred failure_disabled_inv := fun s => by
  unfold failure_disabled_inv; infer_instance

/-- `AdminServiceError` (src/admin/error.rs lines 10-23). -/
inductive AdminServiceError where
  | NotFound (id : Nat)
  | InvalidRequest (msg : String)
  | UpstreamError (msg : String)
  | InternalError (msg : String)
deriving DecidableEq, Repr

/-- `AdminServiceError::status_code` (src/admin/error.rs lines 42-49). -/
def status_code : AdminServiceError → Nat
  | AdminServiceError.NotFound _ => 404
  | AdminServiceError.InvalidRequest _ => 400
  | AdminServiceError.UpstreamError _ => 502
  | AdminServiceError.InternalError _ => 500

/-- `AdminService::classify_error` (src/admin/service.rs lines 308-315). -/
def classify_error (msg : String) (id : Nat) : AdminServiceError :=
  if strContains msg "不存在" then AdminServiceError.NotFound id
  else AdminServiceError.InternalError msg

/-- The upstream-failure message patterns of `classify_balance_error`
    (src/admin/service.rs lines 327-339). -/
def isUpstreamMsg (msg : String) : Bool :=
  strContains msg "凭证已过期或无效" ||
  strContains msg "权限不足" ||
  strContains msg "已被限流" ||
  strContains msg "服务器错误" ||
  strContains msg "Token 刷新失败" ||
  strContains msg "暂时不可用" ||
  strContains msg "error trying to connect" ||
  strContains msg "connection" ||
  strContains msg "timeout" ||
  strContains msg "timed out"

/-- `AdminService::classify_balance_error` (src/admin/service.rs lines 318-348). -/
def classify_balance_error (msg : String) (id : Nat) : AdminServiceError :=
  if strContains msg "不存在" then AdminServiceError.NotFound id
  else if isUpstreamMsg msg then AdminServiceError.UpstreamError msg
  else AdminServiceError.InternalError msg

/-- Whether `try_ensure_token` decides a refresh is needed (both checks of the
    double-checked pattern, token_manager.rs lines 629 and 641). -/
def needs_refresh (parse : String → Option Int) (now : Int)
    (c : KiroCredentials) : Bool :=
  is_token_expired parse now c || is_token_expiring_soon parse now c

/-- One holder's pass through the `refresh_lock` critical section of
    `try_ensure_token` (token_manager.rs lines 631-667), for the scenario where
    every caller took the slow path.  `stored` is the credential re-read from the
    store under the lock; `refreshed` is the refresh client's response snapshot
    for this expiry window.  Returns the stored credential after the section, a
    flag telling whether the refresh client was invoked, and the holder's result
    (`Except.ok token` on success). -/
def ensure_locked_step (parse : String → Option Int) (now : Int)
    (refreshed stored : KiroCredentials) :
    KiroCredentials × Bool × Except String String :=
  if needs_refresh parse now stored then
    if is_token_expired parse now refreshed then
      (stored, true, Except.error "刷新后的 Token 仍然无效或已过期")
    else
      (refreshed, true,
       match refreshed.access_token with
       | some t => Except.ok t
       | none => Except.error "没有可用的 accessToken")
  else
    (stored, false,
     match stored.access_token with
     | some t => Except.ok t
     | none => Except.error "没有可用的 accessToken")

/-- `k` contending `ensure_token` callers entering the refresh lock one after the
    other (the tokio mutex serializes the critical sections; the lock-free first
    check sent every caller to the slow path).  Returns the final stored
    credential, the number of upstream refresh invocations, and each caller's
    result in lock-acquisition order. -/
def run_holders (parse : String → Option Int) (now : Int)
    (refreshed : KiroCredentials) :
    Nat → KiroCredentials → KiroCredentials × Nat × List (Except String String)
  | 0, stored => (stored, 0, [])
  | Nat.succ k, stored =>
    let step := ensure_locked_step parse now refreshed stored
    let rest := run_holders parse now refreshed k step.1
    (rest.1, (if step.2.1 then 1 else 0) + rest.2.1, step.2.2 :: rest.2.2)

/-- Sample credential with a parseable `expires_at`, for witnesses. -/
def credParseable : KiroCredentials :=
  { id := 1, refresh_token := none, access_token := none,
    expires_at := some "1970-01-01T00:02:00Z", auth_method := none,
    client_id := none, client_secret := none, profile_arn := none,
    machine_id := none, priority := 0, disabled := false,
    disabled_at := none, failure_count := 0 }

/-- Toy RFC-3339 parser recognising the two instants the witnesses use. -/
def parseToy : String → Option Int := fun s =>
  if s = "1970-01-01T00:02:00Z" then some 120
  else if s = "1970-01-01T10:00:00Z" then some 36000
  else none

/-- C4: for a credential whose `expires_at` is absent or parses to `e`,
    `is_token_expired` is true exactly when `expires_at` is absent or
    `e ≤ now + 5` minutes, and `is_token_expiring_soon` is true exactly when
    `expires_at` is present and `e ≤ now + 10` minutes (absence gives false). -/
theorem token_expiry_predicates_spec
    (parse : String → Option Int) (now e : Int) (c : KiroCredentials)
    (hp : ∀ s, c.expires_at = some s → parse s = some e) :
    (is_token_expired parse now c = true ↔
      c.expires_at = none ∨ (∃ s, c.expires_at = some s ∧ e ≤ now + 5 * 60)) ∧
    (is_token_expiring_soon parse now c = true ↔
      ∃ s, c.expires_at = some s ∧ e ≤ now + 10 * 60) := by
  cases hea : c.expires_at with
  | none =>
    simp [is_token_expired, is_token_expiring_soon, is_token_expiring_within, hea]
  | some s =>
    have hps := hp s hea
    simp [is_token_expired, is_token_expiring_soon, is_token_expiring_within, hea, hps]

/-- Witness for C4 at a concrete parser, instant and credential. -/
theorem token_expiry_predicates_spec_witness :
    (is_token_expired parseToy 0 credParseable = true ↔
      credParseable.expires_at = none ∨
        (∃ s, credParseable.expires_at = some s ∧ (120 : Int) ≤ 0 + 5 * 60)) ∧
    (is_token_expiring_soon parseToy 0 credParseable = true ↔
      ∃ s, credParseable.expires_at = some s ∧ (120 : Int) ≤ 0 + 10 * 60) :=
  token_expiry_predicates_spec parseToy 0 120 credParseable
    (by intro s hs; cases hs; rfl)

/-- C9: a present but unparseable `expires_at` behaves exactly like an absent one:
    expired, but not expiring-soon. -/
theorem unparseable_expires_at_spec
    (parse : String → Option Int) (now : Int) (c : KiroCredentials) (s : String)
    (h1 : c.expires_at = some s) (h2 : parse s = none) :
    is_token_expired parse now c = true ∧ is_token_expiring_soon parse now c = false := by
  simp [is_token_expired, is_token_expiring_soon, is_token_expiring_within, h1, h2]

/-- Witness for C9: a credential whose `expires_at` the parser rejects. -/
theorem unparseable_expires_at_spec_witness :
    is_token_expired parseToy 0
        { credParseable with expires_at := some "garbage" } = true ∧
      is_token_expiring_soon parseToy 0
        { credParseable with expires_at := some "garbage" } = false :=
  unparseable_expires_at_spec parseToy 0
    { credParseable with expires_at := some "garbage" } "garbage" rfl (by decide)

/-- C5: an absent, empty, short (< 100 chars) or `...`-marked refresh token is
    rejected by the pre-validation (so no HTTP request is made); a token passing
    all checks proceeds to the selected protocol call. -/
theorem refresh_token_pre_validation_spec (c : KiroCredentials) :
    ((c.refresh_token = none ∨
        ∃ rt, c.refresh_token = some rt ∧
          (rt.isEmpty = true ∨ rt.length < 100 ∨
            strEndsWith rt "..." = true ∨ strContains rt "..." = true)) →
      ∃ e, refresh_token c = Except.error e) ∧
    ((∃ rt, c.refresh_token = some rt ∧
        rt.isEmpty = false ∧ ¬rt.length < 100 ∧
        strEndsWith rt "..." = false ∧ strContains rt "..." = false) →
      refresh_token c = Except.ok (chooseProtocol c)) := by
  constructor
  · rintro (hnone | ⟨rt, hrt, hbad⟩)
    · exact ⟨"缺少 refreshToken", by simp [refresh_token, validate_refresh_token, hnone]⟩
    · by_cases he : rt.isEmpty
      · exact ⟨"refreshToken 为空",
          by simp [refresh_token, validate_refresh_token, hrt, he]⟩
      · rcases hbad with h | h | h | h
        · exact absurd h (by simp [he])
        all_goals
          exact ⟨"refreshToken 已被截断",
            by simp [refresh_token, validate_refresh_token, hrt, he, h]⟩
  · rintro ⟨rt, hrt, h1, h2, h3, h4⟩
    simp [refresh_token, validate_refresh_token, hrt, h1, h2, h3, h4]

/-- A 100-character refresh token passing every pre-validation check. -/
def longToken : String :=
  String.mk (List.replicate 100 (Char.ofNat 97))

set_option maxRecDepth 10000 in
/-- Witness for C5: a truncated token is rejected, a full-length one proceeds. -/
theorem refresh_token_pre_validation_spec_witness :
    (∃ e, refresh_token { credParseable with refresh_token := some "abc..." } =
      Except.error e) ∧
    refresh_token { credParseable with refresh_token := some longToken } =
      Except.ok (chooseProtocol { credParseable with refresh_token := some longToken }) :=
  ⟨(refresh_token_pre_validation_spec
      { credParseable with refresh_token := some "abc..." }).1
    (Or.inr ⟨"abc...", rfl, Or.inr (Or.inl (by decide))⟩),
   (refresh_token_pre_validation_spec
      { credParseable with refresh_token := some longToken }).2
    ⟨longToken, rfl, by decide, by decide, by decide, by decide⟩⟩

/-- Credential with a valid refresh token and an unknown `auth_method`. -/
def credMystery : KiroCredentials :=
  { credParseable with refresh_token := some longToken, auth_method := some "Mystery" }

/-- C10: the IdC/OIDC protocol is selected exactly when the lowercased
    `auth_method` equals "idc" or "builder-id"; every other value — including an
    absent `auth_method` and unknown strings — selects the social protocol, and a
    credential that passes pre-validation always proceeds with the chosen
    protocol (it is never rejected because of its `auth_method`). -/
theorem protocol_selection_spec (c : KiroCredentials) :
    (chooseProtocol c = AuthProtocol.idc ↔
      ∃ am, c.auth_method = some am ∧
        (strToLower am = "idc" ∨ strToLower am = "builder-id")) ∧
    (c.auth_method = none → chooseProtocol c = AuthProtocol.social) ∧
    (validate_refresh_token c = Except.ok () →
      refresh_token c = Except.ok (chooseProtocol c)) := by
  have hsoc : ¬(strToLower "social" = "idc" ∨ strToLower "social" = "builder-id") := by
    decide
  refine ⟨?_, ?_, ?_⟩
  · cases ham : c.auth_method with
    | none =>
      have hcp : chooseProtocol c = AuthProtocol.social := by
        simp only [chooseProtocol, ham, Option.getD, if_neg hsoc]
      rw [hcp]
      constructor
      · intro h
        exact AuthProtocol.noConfusion h
      · rintro ⟨am, ham2, _⟩
        exact Option.noConfusion ham2
    | some am =>
      by_cases h : strToLower am = "idc" ∨ strToLower am = "builder-id"
      · have hcp : chooseProtocol c = AuthProtocol.idc := by
          simp only [chooseProtocol, ham, Option.getD, if_pos h]
        rw [hcp]
        exact ⟨fun _ => ⟨am, rfl, h⟩, fun _ => rfl⟩
      · have hcp : chooseProtocol c = AuthProtocol.social := by
          simp only [chooseProtocol, ham, Option.getD, if_neg h]
        rw [hcp]
        constructor
        · intro hcontra
          exact AuthProtocol.noConfusion hcontra
        · rintro ⟨am2, ham2, h2⟩
          injection ham2 with h3
          subst h3
          exact absurd h2 h
  · intro ham
    simp only [chooseProtocol, ham, Option.getD, if_neg hsoc]
  · intro hok
    simp [refresh_token, hok]

set_option maxRecDepth 10000 in
/-- Witness for C10: an unknown `auth_method` ("Mystery") selects social and the
    refresh still proceeds. -/
theorem protocol_selection_spec_witness :
    (chooseProtocol credMystery = AuthProtocol.idc ↔
      ∃ am, credMystery.auth_method = some am ∧
        (strToLower am = "idc" ∨ strToLower am = "builder-id")) ∧
    (credMystery.auth_method = none → chooseProtocol credMystery = AuthProtocol.social) ∧
    (validate_refresh_token credMystery = Except.ok () →
      refresh_token credMystery = Except.ok (chooseProtocol credMystery)) :=
  protocol_selection_spec credMystery

/-- C8 (amended): only messages containing "不存在" are classified NotFound (the
    English "not found" is not checked); among the rest, `classify_balance_error`
    yields UpstreamError exactly on the upstream patterns and InternalError
    otherwise, while `classify_error` always yields InternalError; the kinds
    render as 404 / 502 / 500. -/
theorem admin_error_classification_spec (msg : String) (id : Nat) :
    (classify_error msg id = AdminServiceError.NotFound id ↔
      strContains msg "不存在" = true) ∧
    (strContains msg "不存在" = false →
      classify_error msg id = AdminServiceError.InternalError msg) ∧
    (classify_balance_error msg id = AdminServiceError.NotFound id ↔
      strContains msg "不存在" = true) ∧
    (strContains msg "不存在" = false → isUpstreamMsg msg = true →
      classify_balance_error msg id = AdminServiceError.UpstreamError msg) ∧
    (strContains msg "不存在" = false → isUpstreamMsg msg = false →
      classify_balance_error msg id = AdminServiceError.InternalError msg) ∧
    status_code (AdminServiceError.NotFound id) = 404 ∧
    status_code (AdminServiceError.UpstreamError msg) = 502 ∧
    status_code (AdminServiceError.InternalError msg) = 500 := by
  by_cases hz : strContains msg "不存在" = true
  · refine ⟨by simp [classify_error, hz], by simp [hz], by simp [classify_balance_error, hz],
      by simp [hz], by simp [hz], rfl, rfl, rfl⟩
  · have hz2 : strContains msg "不存在" = false := by
      cases h : strContains msg "不存在"
      · rfl
      · exact absurd h hz
    refine ⟨?_, ?_, ?_, ?_, ?_, rfl, rfl, rfl⟩
    · simp [classify_error, hz2]
    · intro _
      simp [classify_error, hz2]
    · by_cases hu : isUpstreamMsg msg = true <;>
        simp [classify_balance_error, hz2, hu]
    · intro _ hu
      simp [classify_balance_error, hz2, hu]
    · intro _ hu
      simp [classify_balance_error, hz2, hu]

/-- Counterexample to C8 as stated: the message "credential not found" contains
    "not found", yet both classifiers return InternalError (rendered 500), not
    NotFound (404). -/
theorem admin_error_not_found_cex :
    strContains "credential not found" "not found" = true ∧
    classify_error "credential not found" 1 =
      AdminServiceError.InternalError "credential not found" ∧
    classify_balance_error "credential not found" 1 =
      AdminServiceError.InternalError "credential not found" ∧
    status_code (classify_error "credential not found" 1) = 500 := by
  refine ⟨by decide, ?_, ?_, ?_⟩ <;>
    simp [classify_error, classify_balance_error, isUpstreamMsg, strContains,
      status_code] <;> decide

/-- Witness for the amended C8 at a concrete message. -/
theorem admin_error_classification_spec_witness :
    (classify_error "凭据不存在: 7" 7 = AdminServiceError.NotFound 7 ↔
      strContains "凭据不存在: 7" "不存在" = true) ∧
    (strContains "凭据不存在: 7" "不存在" = false →
      classify_error "凭据不存在: 7" 7 = AdminServiceError.InternalError "凭据不存在: 7") ∧
    (classify_balance_error "凭据不存在: 7" 7 = AdminServiceError.NotFound 7 ↔
      strContains "凭据不存在: 7" "不存在" = true) ∧
    (strContains "凭据不存在: 7" "不存在" = false → isUpstreamMsg "凭据不存在: 7" = true →
      classify_balance_error "凭据不存在: 7" 7 =
        AdminServiceError.UpstreamError "凭据不存在: 7") ∧
    (strContains "凭据不存在: 7" "不存在" = false → isUpstreamMsg "凭据不存在: 7" = false →
      classify_balance_error "凭据不存在: 7" 7 =
        AdminServiceError.InternalError "凭据不存在: 7") ∧
    status_code (AdminServiceError.NotFound 7) = 404 ∧
    status_code (AdminServiceError.UpstreamError "凭据不存在: 7") = 502 ∧
    status_code (AdminServiceError.InternalError "凭据不存在: 7") = 500 :=
  admin_error_classification_spec "凭据不存在: 7" 7

/-- The Bool WHERE-clause test agrees with its propositional reading. -/
theorem recoverCond_iff (cutoff : Int) (c : KiroCredentials) :
    recoverCond cutoff c = true ↔
      c.disabled = true ∧ ∃ t, c.disabled_at = some t ∧ t < cutoff := by
  unfold recoverCond
  cases hda : c.disabled_at <;> simp [hda]

/-- Row-level characterization of the recovery UPDATE: every row is rewritten or
    kept according to the WHERE clause, and the returned count is the number of
    matching rows. -/
theorem recoverRows_spec (cutoff : Int) (l : List KiroCredentials) :
    List.Forall₂ (fun c c' =>
      ((c.disabled = true ∧ ∃ t, c.disabled_at = some t ∧ t < cutoff) →
        c' = { c with disabled := false, disabled_at := none, failure_count := 0 }) ∧
      (¬(c.disabled = true ∧ ∃ t, c.disabled_at = some t ∧ t < cutoff) → c' = c))
      l (recoverRows cutoff l).1 ∧
    (recoverRows cutoff l).2 = l.countP (recoverCond cutoff) := by
  induction l with
  | nil => simp [recoverRows]
  | cons c cs ih =>
    by_cases hc : recoverCond cutoff c = true
    · have hp := (recoverCond_iff cutoff c).mp hc
      have hr : recoverRows cutoff (c :: cs) =
          (recoverRow c :: (recoverRows cutoff cs).1, (recoverRows cutoff cs).2 + 1) := by
        simp [recoverRows, hc]
      rw [hr]
      refine ⟨List.Forall₂.cons ⟨fun _ => rfl, fun hn => absurd hp hn⟩ ih.1, ?_⟩
      simp [ih.2, List.countP_cons, hc]
    · have hp : ¬(c.disabled = true ∧ ∃ t, c.disabled_at = some t ∧ t < cutoff) :=
        fun h => hc ((recoverCond_iff cutoff c).mpr h)
      have hcf : recoverCond cutoff c = false := by
        cases h : recoverCond cutoff c
        · rfl
        · exact absurd h hc
      have hr : recoverRows cutoff (c :: cs) =
          (c :: (recoverRows cutoff cs).1, (recoverRows cutoff cs).2) := by
        simp [recoverRows, hcf]
      rw [hr]
      refine ⟨List.Forall₂.cons ⟨fun h => absurd h hp, fun _ => rfl⟩ ih.1, ?_⟩
      simp [ih.2, List.countP_cons, hcf]

/-- C6: `try_recover_disabled(S)` at wall-time `now` rewrites exactly the rows
    with `disabled = true` and `disabled_at < now − S` to
    `disabled = false, disabled_at = null, failure_count = 0`, leaves every other
    row untouched, and returns the number of rows so modified. -/
theorem try_recover_disabled_spec (now S : Int) (db : DbState) :
    List.Forall₂ (fun c c' =>
      ((c.disabled = true ∧ ∃ t, c.disabled_at = some t ∧ t < now - S) →
        c' = { c with disabled := false, disabled_at := none, failure_count := 0 }) ∧
      (¬(c.disabled = true ∧ ∃ t, c.disabled_at = some t ∧ t < now - S) → c' = c))
      db.rows (Database.try_recover_disabled db now S).1.rows ∧
    (Database.try_recover_disabled db now S).2 =
      db.rows.countP (fun c =>
        c.disabled &&
          match c.disabled_at with
          | some t => decide (t < now - S)
          | none => false) :=
  recoverRows_spec (now - S) db.rows

/-- Disabled row whose cool-down has expired by time 400 with S = 300. -/
def credCooled : KiroCredentials :=
  { credParseable with
    id := 2, disabled := true, disabled_at := some 50, failure_count := 3 }

/-- Disabled row still inside the cool-down window. -/
def credStillHot : KiroCredentials :=
  { credParseable with
    id := 3, disabled := true, disabled_at := some 250, failure_count := 3 }

/-- A two-row store for the recovery witness. -/
def dbRecover : DbState := { rows := [credCooled, credStillHot], nextId := 4 }

/-- Witness for C6 on a concrete store at now = 400, S = 300 (cutoff 100):
    only the row disabled at 50 recovers. -/
theorem try_recover_disabled_spec_witness :
    List.Forall₂ (fun c c' =>
      ((c.disabled = true ∧ ∃ t, c.disabled_at = some t ∧ t < 400 - 300) →
        c' = { c with disabled := false, disabled_at := none, failure_count := 0 }) ∧
      (¬(c.disabled = true ∧ ∃ t, c.disabled_at = some t ∧ t < 400 - 300) → c' = c))
      dbRecover.rows (Database.try_recover_disabled dbRecover 400 300).1.rows ∧
    (Database.try_recover_disabled dbRecover 400 300).2 =
      dbRecover.rows.countP (fun c =>
        c.disabled &&
          match c.disabled_at with
          | some t => decide (t < 400 - 300)
          | none => false) :=
  try_recover_disabled_spec 400 300 dbRecover

/-- A holder that re-reads a fresh credential performs no refresh and reuses its
    token; the stored credential never changes again. -/
theorem run_holders_fresh (parse : String → Option Int) (now : Int)
    (refreshed stored : KiroCredentials) (t : String) (k : Nat)
    (hfresh : needs_refresh parse now stored = false)
    (htok : stored.access_token = some t) :
    run_holders parse now refreshed k stored =
      (stored, 0, List.replicate k (Except.ok t)) := by
  induction k with
  | zero => simp [run_holders]
  | succ k ih =>
    have hstep : ensure_locked_step parse now refreshed stored =
        (stored, false, Except.ok t) := by
      simp [ensure_locked_step, hfresh, htok]
    simp [run_holders, hstep, ih, List.replicate]

/-- C7: when K callers race `ensure_token` on the same credential in the expired
    window, the critical sections execute in lock order; the first holder invokes
    the refresh client (exactly one upstream refresh), persists the new snapshot,
    and every caller — first and subsequent — obtains the same new access token. -/
theorem concurrent_refresh_once (parse : String → Option Int) (now : Int)
    (refreshed stale : KiroCredentials) (t : String) (K : Nat)
    (hstale : needs_refresh parse now stale = true)
    (hfresh : needs_refresh parse now refreshed = false)
    (htok : refreshed.access_token = some t)
    (hK : 1 ≤ K) :
    (run_holders parse now refreshed K stale).2.1 = 1 ∧
    (run_holders parse now refreshed K stale).1 = refreshed ∧
    ∀ r ∈ (run_holders parse now refreshed K stale).2.2, r = Except.ok t := by
  obtain ⟨k, rfl⟩ : ∃ k, K = k + 1 := ⟨K - 1, (Nat.succ_pred_eq_of_pos hK).symm⟩
  have hnexp : is_token_expired parse now refreshed = false := by
    unfold needs_refresh at hfresh
    exact (Bool.or_eq_false_iff.mp hfresh).1
  have hstep : ensure_locked_step parse now refreshed stale =
      (refreshed, true, Except.ok t) := by
    simp [ensure_locked_step, hstale, hnexp, htok]
  have hrest := run_holders_fresh parse now refreshed refreshed t k hfresh htok
  refine ⟨?_, ?_, ?_⟩
  · simp [run_holders, hstep, hrest]
  · simp [run_holders, hstep, hrest]
  · intro r hr
    simp [run_holders, hstep, hrest] at hr
    rcases hr with h | h
    · exact h
    · exact h.2

/-- The stale stored credential for the C7 witness (expired at epoch). -/
def credStale : KiroCredentials :=
  { credParseable with access_token := some "oldtok" }

/-- The refresh client's response snapshot for the C7 witness. -/
def credRefreshed : KiroCredentials :=
  { credParseable with
    access_token := some "newtok", expires_at := some "1970-01-01T10:00:00Z" }

/-- Witness for C7: three racing callers, one refresh, all share "newtok". -/
theorem concurrent_refresh_once_witness :
    (run_holders parseToy 0 credRefreshed 3 credStale).2.1 = 1 ∧
    (run_holders parseToy 0 credRefreshed 3 credStale).1 = credRefreshed ∧
    ∀ r ∈ (run_holders parseToy 0 credRefreshed 3 credStale).2.2,
      r = Except.ok "newtok" :=
  concurrent_refresh_once parseToy 0 credRefreshed credStale "newtok" 3
    (by decide) (by decide) rfl (by decide)

/-- The (priority, id) lexicographic order is transitive. -/
theorem lexLt_trans {a b c : KiroCredentials} (h1 : lexLt a b) (h2 : lexLt b c) :
    lexLt a c := by
  rcases h1 with h1 | ⟨h1e, h1i⟩ <;> rcases h2 with h2 | ⟨h2e, h2i⟩
  · exact Or.inl (Nat.lt_trans h1 h2)
  · exact Or.inl (h2e ▸ h1)
  · exact Or.inl (h1e ▸ h2)
  · exact Or.inr ⟨h1e.trans h2e, Nat.lt_trans h1i h2i⟩

/-- Inserting `a` by priority into a lex-sorted list keeps it lex-sorted, as
    long as `a` precedes (by id) every equal-priority element already there —
    which is exactly the stability situation for a rowid-ordered scan. -/
theorem orderedInsert_lexLt_sorted (a : KiroCredentials) (l : List KiroCredentials)
    (hs : l.Sorted lexLt)
    (hm : ∀ b ∈ l, a.priority = b.priority → a.id < b.id) :
    (l.orderedInsert priorityLE a).Sorted lexLt := by
  induction l with
  | nil => simp [List.orderedInsert]
  | cons b l ih =>
    by_cases hab : priorityLE a b
    · rw [List.orderedInsert, if_pos hab]
      have hablex : lexLt a b := by
        rcases Nat.lt_or_ge a.priority b.priority with h | h
        · exact Or.inl h
        · have he : a.priority = b.priority := Nat.le_antisymm hab h
          exact Or.inr ⟨he, hm b (List.mem_cons_self b l) he⟩
      rw [List.sorted_cons]
      refine ⟨?_, hs⟩
      intro c hc
      rcases List.mem_cons.mp hc with rfl | hc
      · exact hablex
      · exact lexLt_trans hablex (List.rel_of_sorted_cons hs c hc)
    · rw [List.orderedInsert, if_neg hab]
      have hba : b.priority < a.priority := Nat.lt_of_not_le hab
      rw [List.sorted_cons]
      constructor
      · intro c hc
        rcases (List.mem_orderedInsert priorityLE).mp hc with rfl | hc
        · exact Or.inl hba
        · exact List.rel_of_sorted_cons hs c hc
      · exact ih hs.of_cons fun c hc he => hm c (List.mem_cons_of_mem b hc) he

/-- Sorting a rowid-ordered scan by priority yields the (priority, id)
    lexicographic order. -/
theorem insertionSort_lexLt_sorted (l : List KiroCredentials)
    (hid : l.Sorted idLt) :
    (l.insertionSort priorityLE).Sorted lexLt := by
  induction l with
  | nil => simp [List.insertionSort]
  | cons c l ih =>
    rw [List.sorted_cons] at hid
    rw [List.insertionSort]
    exact orderedInsert_lexLt_sorted c (l.insertionSort priorityLE) (ih hid.2)
      fun b hb _ => hid.1 b ((List.mem_insertionSort priorityLE).mp hb)

/-- The head of a lex-sorted list is lex-minimal. -/
theorem head_lexLt_min (l : List KiroCredentials) (c : KiroCredentials)
    (hs : l.Sorted lexLt) (hh : l.head? = some c) :
    ∀ d ∈ l, c = d ∨ lexLt c d := by
  cases l with
  | nil => cases hh
  | cons x t =>
    have hx : x = c := by
      simpa using hh
    subst hx
    intro d hd
    rcases List.mem_cons.mp hd with rfl | hd
    · exact Or.inl rfl
    · exact Or.inr (List.rel_of_sorted_cons hs d hd)

/-- `WHERE p ORDER BY priority ASC LIMIT 1` over a rowid-ordered scan: the result
    is a matching row lex-minimal among matching rows, and it is `none` exactly
    when no row matches. -/
theorem filtered_head_spec (l : List KiroCredentials) (p : KiroCredentials → Bool)
    (hid : l.Sorted idLt) :
    (∀ c, ((l.filter p).insertionSort priorityLE).head? = some c →
      c ∈ l ∧ p c = true ∧ ∀ d ∈ l, p d = true → c = d ∨ lexLt c d) ∧
    (((l.filter p).insertionSort priorityLE).head? = none ↔
      ∀ d ∈ l, p d = false) := by
  have hfid : (l.filter p).Sorted idLt := hid.filter p
  have hsorted := insertionSort_lexLt_sorted (l.filter p) hfid
  constructor
  · intro c hc
    have hmem : c ∈ l.filter p :=
      (List.mem_insertionSort priorityLE).mp
        (List.mem_of_mem_head? (hc ▸ Option.mem_def.mpr rfl))
    have hcl := List.mem_filter.mp hmem
    refine ⟨hcl.1, hcl.2, ?_⟩
    intro d hd hpd
    exact head_lexLt_min _ c hsorted hc d
      ((List.mem_insertionSort priorityLE).mpr (List.mem_filter.mpr ⟨hd, hpd⟩))
  · rw [List.head?_eq_none_iff]
    constructor
    · intro h d hd
      by_contra hpd
      have hpd2 : p d = true := by
        cases hp : p d
        · exact absurd hp hpd
        · rfl
      have : d ∈ (l.filter p).insertionSort priorityLE :=
        (List.mem_insertionSort priorityLE).mpr (List.mem_filter.mpr ⟨hd, hpd2⟩)
      rw [h] at this
      cases this
    · intro h
      have : l.filter p = [] := by
        rw [List.filter_eq_nil_iff]
        intro d hd
        rw [h d hd]
        exact Bool.false_ne_true
      rw [this]
      rfl

/-- C3: `load_credentials` returns the stored records sorted by priority
    ascending with id ascending as tie-break; `get_highest_priority_available`
    returns the enabled record minimal in that (priority, id) order, and
    `get_next_available` does the same among enabled records with a different id. -/
theorem load_and_selection_ordering_spec (db : DbState)
    (hid : db.rows.Sorted idLt) :
    (Database.load_credentials db).Perm db.rows ∧
    (Database.load_credentials db).Sorted lexLt ∧
    (∀ c, Database.get_highest_priority_available db = some c →
      c ∈ db.rows ∧ c.disabled = false ∧
        ∀ d ∈ db.rows, d.disabled = false → c = d ∨ lexLt c d) ∧
    (Database.get_highest_priority_available db = none ↔
      ∀ d ∈ db.rows, d.disabled = true) ∧
    (∀ ex c, Database.get_next_available db ex = some c →
      c ∈ db.rows ∧ c.disabled = false ∧ c.id ≠ ex ∧
        ∀ d ∈ db.rows, d.disabled = false → d.id ≠ ex → c = d ∨ lexLt c d) ∧
    (∀ ex, Database.get_next_available db ex = none ↔
      ∀ d ∈ db.rows, d.disabled = false → d.id = ex) := by
  refine ⟨List.perm_insertionSort priorityLE db.rows,
    insertionSort_lexLt_sorted db.rows hid, ?_, ?_, ?_, ?_⟩
  · intro c hc
    have h := (filtered_head_spec db.rows (fun r => !r.disabled) hid).1 c hc
    refine ⟨h.1, by simpa using h.2.1, ?_⟩
    intro d hd hdd
    exact h.2.2 d hd (by simp [hdd])
  · unfold Database.get_highest_priority_available
    rw [(filtered_head_spec db.rows (fun r => !r.disabled) hid).2]
    constructor
    · intro h d hd
      have := h d hd
      simpa using this
    · intro h d hd
      simp [h d hd]
  · intro ex c hc
    have h := (filtered_head_spec db.rows
      (fun r => !r.disabled && r.id != ex) hid).1 c hc
    have hcp : c.disabled = false ∧ c.id ≠ ex := by
      have := h.2.1
      simp only [Bool.and_eq_true, Bool.not_eq_true', bne_iff_ne] at this
      exact this
    refine ⟨h.1, hcp.1, hcp.2, ?_⟩
    intro d hd hdd hdx
    exact h.2.2 d hd (by simp [hdd, hdx])
  · intro ex
    unfold Database.get_next_available
    rw [(filtered_head_spec db.rows (fun r => !r.disabled && r.id != ex) hid).2]
    constructor
    · intro h d hd hdd
      have := h d hd
      simp only [Bool.and_eq_false_iff, Bool.not_eq_false', bne_eq_false_iff_eq] at this
      rcases this with h2 | h2
      · rw [hdd] at h2
        cases h2
      · exact h2
    · intro h d hd
      cases hdd : d.disabled
      · simp [h d hd hdd]
      · simp [hdd]

/-- Two enabled rows with equal priority: the lower id must win. -/
def credTieA : KiroCredentials := { credParseable with id := 1, priority := 3 }

/-- The equal-priority, higher-id partner of `credTieA`. -/
def credTieB : KiroCredentials := { credParseable with id := 2, priority := 3 }

/-- Store for the C3 witness. -/
def dbTie : DbState := { rows := [credTieA, credTieB], nextId := 3 }

/-- Witness for C3 on a priority tie: the order and both selectors evaluate. -/
theorem load_and_selection_ordering_spec_witness :
    (Database.load_credentials dbTie).Perm dbTie.rows ∧
    (Database.load_credentials dbTie).Sorted lexLt ∧
    (∀ c, Database.get_highest_priority_available dbTie = some c →
      c ∈ dbTie.rows ∧ c.disabled = false ∧
        ∀ d ∈ dbTie.rows, d.disabled = false → c = d ∨ lexLt c d) ∧
    (Database.get_highest_priority_available dbTie = none ↔
      ∀ d ∈ dbTie.rows, d.disabled = true) ∧
    (∀ ex c, Database.get_next_available dbTie ex = some c →
      c ∈ dbTie.rows ∧ c.disabled = false ∧ c.id ≠ ex ∧
        ∀ d ∈ dbTie.rows, d.disabled = false → d.id ≠ ex → c = d ∨ lexLt c d) ∧
    (∀ ex, Database.get_next_available dbTie ex = none ↔
      ∀ d ∈ dbTie.rows, d.disabled = false → d.id = ex) :=
  load_and_selection_ordering_spec dbTie (by decide)

/-- The recovery UPDATE rewrites the table pointwise. -/
theorem recoverRows_fst_eq_map (cutoff : Int) (l : List KiroCredentials) :
    (recoverRows cutoff l).1 =
      l.map fun c => if recoverCond cutoff c then recoverRow c else c := by
  induction l with
  | nil => rfl
  | cons c cs ih =>
    by_cases hc : recoverCond cutoff c = true
    · simp [recoverRows, hc, ih]
    · have hcf : recoverCond cutoff c = false := by
        cases h : recoverCond cutoff c
        · rfl
        · exact absurd h hc
      simp [recoverRows, hcf, ih]

/-- An id-preserving rewrite of the table keeps every id present. -/
theorem exists_id_after_map (rows : List KiroCredentials)
    (f : KiroCredentials → KiroCredentials)
    (hf : ∀ r ∈ rows, (f r).id = r.id) (x : Nat)
    (h : ∃ c ∈ rows, c.id = x) : ∃ c ∈ rows.map f, c.id = x := by
  obtain ⟨c, hc, hcx⟩ := h
  exact ⟨f c, List.mem_map_of_mem f hc, (hf c hc).trans hcx⟩

/-- A row delivered by `WHERE p ... LIMIT 1` is a matching member of the table. -/
theorem head_filter_sort_mem (l : List KiroCredentials) (p : KiroCredentials → Bool)
    (c : KiroCredentials)
    (h : ((l.filter p).insertionSort priorityLE).head? = some c) :
    c ∈ l ∧ p c = true :=
  List.mem_filter.mp
    ((List.mem_insertionSort priorityLE).mp
      (List.mem_of_mem_head? (h ▸ Option.mem_def.mpr rfl)))

/-- If some row matches `p`, `WHERE p ... LIMIT 1` does deliver a row. -/
theorem head_filter_sort_isSome (l : List KiroCredentials)
    (p : KiroCredentials → Bool) (d : KiroCredentials)
    (hd : d ∈ l) (hpd : p d = true) :
    ∃ c, ((l.filter p).insertionSort priorityLE).head? = some c := by
  cases h : ((l.filter p).insertionSort priorityLE).head? with
  | some c => exact ⟨c, rfl⟩
  | none =>
    rw [List.head?_eq_none_iff] at h
    have : d ∈ (l.filter p).insertionSort priorityLE :=
      (List.mem_insertionSort priorityLE).mpr (List.mem_filter.mpr ⟨hd, hpd⟩)
    rw [h] at this
    cases this

/-- `get_highest_priority_available` returns an enabled member of the table. -/
theorem highest_available_mem (db : DbState) (c : KiroCredentials)
    (h : Database.get_highest_priority_available db = some c) :
    c ∈ db.rows ∧ c.disabled = false := by
  have h2 := head_filter_sort_mem db.rows (fun r => !r.disabled) c h
  exact ⟨h2.1, by simpa using h2.2⟩

/-- `get_next_available` returns an enabled member with a different id. -/
theorem next_available_mem (db : DbState) (ex : Nat) (c : KiroCredentials)
    (h : Database.get_next_available db ex = some c) :
    c ∈ db.rows ∧ c.disabled = false ∧ c.id ≠ ex := by
  have h2 := head_filter_sort_mem db.rows (fun r => !r.disabled && r.id != ex) c h
  have h3 := h2.2
  simp only [Bool.and_eq_true, Bool.not_eq_true', bne_iff_ne] at h3
  exact ⟨h2.1, h3.1, h3.2⟩

/-- `report_success` keeps `current_id` valid. -/
theorem cid_report_success (s : PoolState) (id : Nat) (h : current_id_ok s) :
    current_id_ok (MultiTokenManager.report_success s id) := by
  rcases h with h0 | hex
  · exact Or.inl h0
  · exact Or.inr (exists_id_after_map _ _
      (fun r _ => by by_cases hr : r.id = id <;> simp [hr]) _ hex)

/-- `select_highest_priority` keeps `current_id` valid. -/
theorem cid_select_highest (s : PoolState) (h : current_id_ok s) :
    current_id_ok (MultiTokenManager.select_highest_priority s) := by
  unfold MultiTokenManager.select_highest_priority
  cases hh : Database.get_highest_priority_available s.db with
  | none => exact h
  | some best =>
    dsimp only
    by_cases hb : best.id ≠ s.current_id
    · rw [if_pos hb]
      exact Or.inr ⟨best, (highest_available_mem s.db best hh).1, rfl⟩
    · rw [if_neg hb]
      exact h

/-- `switch_to_next_by_priority` keeps `current_id` valid. -/
theorem cid_switch_by_priority (s : PoolState) (h : current_id_ok s) :
    current_id_ok (MultiTokenManager.switch_to_next_by_priority s) := by
  unfold MultiTokenManager.switch_to_next_by_priority
  cases hh : Database.get_next_available s.db s.current_id with
  | none => exact h
  | some next =>
    exact Or.inr ⟨next, (next_available_mem s.db s.current_id next hh).1, rfl⟩

/-- `switch_to_next` keeps `current_id` valid. -/
theorem cid_switch_to_next (s : PoolState) (h : current_id_ok s) :
    current_id_ok (MultiTokenManager.switch_to_next s).1 := by
  unfold MultiTokenManager.switch_to_next
  cases hh : Database.get_next_available s.db s.current_id with
  | none => exact h
  | some next =>
    exact Or.inr ⟨next, (next_available_mem s.db s.current_id next hh).1, rfl⟩

/-- `report_failure` keeps `current_id` valid. -/
theorem cid_report_failure (s : PoolState) (now : Int) (id : Nat)
    (h : current_id_ok s) :
    current_id_ok (MultiTokenManager.report_failure s now id).1 := by
  have hmap1 : current_id_ok
      { s with db := (Database.increment_failure_count s.db id).1 } := by
    rcases h with h0 | hex
    · exact Or.inl h0
    · exact Or.inr (exists_id_after_map _ _
        (fun r _ => by by_cases hr : r.id = id <;> simp [hr]) _ hex)
  have hmap2 : current_id_ok
      { s with db := (Database.set_disabled
          (Database.increment_failure_count s.db id).1 id true now).1 } := by
    rcases hmap1 with h0 | hex
    · exact Or.inl h0
    · exact Or.inr (exists_id_after_map _ _
        (fun r _ => by by_cases hr : r.id = id <;> simp [hr]) _ hex)
  unfold MultiTokenManager.report_failure
  cases hopt : (Database.increment_failure_count s.db id).2 with
  | none =>
    have : Database.increment_failure_count s.db id =
        ((Database.increment_failure_count s.db id).1, none) := by
      rw [← hopt]
    rw [this]
    exact hmap1

  | some cnt =>
    have : Database.increment_failure_count s.db id =
        ((Database.increment_failure_count s.db id).1, some cnt) := by
      rw [← hopt]
    rw [this]
    dsimp only
    by_cases hcnt : cnt ≥ 3
    · rw [if_pos hcnt]
      cases hh : Database.get_highest_priority_available
          (Database.set_disabled
            (Database.increment_failure_count s.db id).1 id true now).1 with
      | none => exact hmap2
      | some next =>
        exact Or.inr ⟨next, (highest_available_mem _ next hh).1, rfl⟩
    · rw [if_neg hcnt]
      exact hmap1

/-- Manager `set_disabled` keeps `current_id` valid. -/
theorem cid_set_disabled (s : PoolState) (id : Nat) (flag : Bool) (now : Int)
    (h : current_id_ok s) :
    current_id_ok (MultiTokenManager.set_disabled s id flag now) := by
  unfold MultiTokenManager.set_disabled
  by_cases hf : flag = true
  · rw [if_pos hf]
    rcases h with h0 | hex
    · exact Or.inl h0
    · exact Or.inr (exists_id_after_map _ _
        (fun r _ => by by_cases hr : r.id = id <;> simp [hr]) _ hex)
  · rw [if_neg hf]
    rcases h with h0 | hex
    · exact Or.inl h0
    · exact Or.inr (exists_id_after_map _ _
        (fun r _ => by by_cases hr : r.id = id <;> simp [hr]) _ hex)

/-- Manager `set_priority` keeps `current_id` valid. -/
theorem cid_set_priority (s : PoolState) (id p : Nat) (h : current_id_ok s) :
    current_id_ok (MultiTokenManager.set_priority s id p) := by
  unfold MultiTokenManager.set_priority
  apply cid_select_highest
  rcases h with h0 | hex
  · exact Or.inl h0
  · exact Or.inr (exists_id_after_map _ _
      (fun r _ => by by_cases hr : r.id = id <;> simp [hr]) _ hex)

/-- Manager `reset_and_enable` keeps `current_id` valid. -/
theorem cid_reset_and_enable (s : PoolState) (id : Nat) (h : current_id_ok s) :
    current_id_ok (MultiTokenManager.reset_and_enable s id) := by
  rcases h with h0 | hex
  · exact Or.inl h0
  · exact Or.inr (exists_id_after_map _ _
      (fun r _ => by by_cases hr : r.id = id <;> simp [hr]) _ hex)

/-- `add_credential` keeps `current_id` valid. -/
theorem cid_add_credential (s : PoolState) (cred : KiroCredentials)
    (h : current_id_ok s) :
    current_id_ok (MultiTokenManager.add_credential s cred).1 := by
  unfold MultiTokenManager.add_credential Database.insert_credential
  dsimp only
  by_cases hone :
      Database.count_credentials
        { rows := s.db.rows ++ [{ cred with id := s.db.nextId }],
          nextId := s.db.nextId + 1 } = 1
  · rw [if_pos hone]
    exact Or.inr ⟨{ cred with id := s.db.nextId },
      List.mem_append_right _ (List.mem_singleton.mpr rfl), rfl⟩
  · rw [if_neg hone]
    rcases h with h0 | ⟨c, hc, hcx⟩
    · exact Or.inl h0
    · exact Or.inr ⟨c, List.mem_append_left _ hc, hcx⟩

/-- `delete_credential` keeps `current_id` valid, provided that when the current
    credential itself is deleted some enabled credential survives (or the
    sentinel was in place). -/
theorem cid_delete_credential (s : PoolState) (id : Nat) (h : current_id_ok s)
    (hrem : id = s.current_id →
      s.current_id = 0 ∨ ∃ c ∈ s.db.rows, c.id ≠ id ∧ c.disabled = false) :
    current_id_ok (MultiTokenManager.delete_credential s id).1 := by
  unfold MultiTokenManager.delete_credential Database.delete_credential
  dsimp only
  by_cases hdel : (s.db.rows.any fun r => r.id == id) = true
  · rw [if_pos hdel]
    by_cases hcur : id = s.current_id
    · rw [if_pos hcur]
      rcases hrem hcur with h0 | ⟨c, hc, hcid, hcd⟩
      · exact cid_select_highest _ (Or.inl h0)
      · have hcmem : c ∈ s.db.rows.filter fun r => r.id ≠ id :=
          List.mem_filter.mpr ⟨hc, by simp [hcid]⟩
        obtain ⟨best, hbest⟩ := head_filter_sort_isSome
          (s.db.rows.filter fun r => r.id ≠ id) (fun r => !r.disabled) c hcmem
          (by simp [hcd])
        unfold MultiTokenManager.select_highest_priority
        rw [show Database.get_highest_priority_available
            { rows := s.db.rows.filter fun r => r.id ≠ id, nextId := s.db.nextId } =
            some best from hbest]
        dsimp only
        have hbmem := head_filter_sort_mem _ _ best hbest
        have hbid : best.id ≠ id := by
          have := (List.mem_filter.mp hbmem.1).2
          simpa using this
        rw [if_pos (by simpa [hcur] using hbid)]
        exact Or.inr ⟨best, hbmem.1, rfl⟩
    · rw [if_neg hcur]
      rcases h with h0 | ⟨c, hc, hcx⟩
      · exact Or.inl h0
      · refine Or.inr ⟨c, List.mem_filter.mpr ⟨hc, ?_⟩, hcx⟩
        simp only [decide_eq_true_eq]
        intro hcontra
        exact hcur ((hcontra ▸ hcx).symm ▸ rfl)
  · rw [if_neg hdel]
    rcases h with h0 | ⟨c, hc, hcx⟩
    · exact Or.inl h0
    · refine Or.inr ⟨c, List.mem_filter.mpr ⟨hc, ?_⟩, hcx⟩
      simp only [decide_eq_true_eq]
      intro hcontra
      rw [List.any_eq_true] at hdel
      exact hdel ⟨c, hc, by simp [hcontra]⟩

/-- The selection block of `acquire_context` yields a state with a valid
    `current_id` over the same store. -/
theorem cid_selectCred (s s1 : PoolState) (id : Nat) (c : KiroCredentials)
    (hsel : MultiTokenManager.selectCred s = some (id, c, s1))
    (h : current_id_ok s) :
    current_id_ok s1 ∧ s1.db = s.db := by
  unfold MultiTokenManager.selectCred at hsel
  cases hg : Database.get_credential s.db s.current_id with
  | some c0 =>
    rw [hg] at hsel
    dsimp only at hsel
    by_cases hd : c0.disabled = true
    · rw [if_neg (by simp [hd])] at hsel
      cases hh : Database.get_highest_priority_available s.db with
      | none => rw [hh] at hsel; cases hsel
      | some c2 =>
        rw [hh] at hsel
        simp only [Option.some.injEq, Prod.mk.injEq] at hsel
        obtain ⟨h1, h2, h3⟩ := hsel
        rw [← h3]
        exact ⟨Or.inr ⟨c2, (highest_available_mem s.db c2 hh).1, rfl⟩, rfl⟩
    · rw [if_pos (by simp [Bool.not_eq_true] at hd; simp [hd])] at hsel
      simp only [Option.some.injEq, Prod.mk.injEq] at hsel
      obtain ⟨h1, h2, h3⟩ := hsel
      rw [← h3]
      exact ⟨h, rfl⟩
  | none =>
    rw [hg] at hsel
    dsimp only at hsel
    cases hh : Database.get_highest_priority_available s.db with
    | none => rw [hh] at hsel; cases hsel
    | some c2 =>
      rw [hh] at hsel
      simp only [Option.some.injEq, Prod.mk.injEq] at hsel
      obtain ⟨h1, h2, h3⟩ := hsel
      rw [← h3]
      exact ⟨Or.inr ⟨c2, (highest_available_mem s.db c2 hh).1, rfl⟩, rfl⟩

/-- The retry loop of `acquire_context` keeps `current_id` valid. -/
theorem cid_acquireGo (oracle : Nat → EnsureOutcome) (fuel : Nat) (s : PoolState)
    (h : current_id_ok s) :
    current_id_ok (MultiTokenManager.acquireGo oracle fuel s) := by
  induction fuel generalizing s with
  | zero => exact h
  | succ fuel ih =>
    unfold MultiTokenManager.acquireGo
    cases hsel : MultiTokenManager.selectCred s with
    | none => exact h
    | some trip =>
      obtain ⟨id, c, s1⟩ := trip
      obtain ⟨h1, hdb⟩ := cid_selectCred s s1 id c hsel h
      dsimp only
      have h2 : ∀ s2 : PoolState,
          current_id_ok s2 →
          current_id_ok
            (if (oracle fuel).ok = true then s2
             else MultiTokenManager.acquireGo oracle fuel
               (MultiTokenManager.switch_to_next_by_priority s2)) := by
        intro s2 hs2
        by_cases hok : (oracle fuel).ok = true
        · rw [if_pos hok]
          exact hs2
        · rw [if_neg hok]
          exact ih _ (cid_switch_by_priority s2 hs2)
      cases hresp : (oracle fuel).resp with
      | none =>
        dsimp only
        exact h2 s1 h1
      | some r =>
        dsimp only
        cases hcur : Database.get_credential s1.db id with
        | none => exact h2 s1 h1
        | some cur =>
          apply h2
          rcases h1 with h0 | hex
          · exact Or.inl h0
          · exact Or.inr (exists_id_after_map _ _
              (fun r2 _ => by
                by_cases hr : r2.id = (applyRefreshResp cur r).id <;> simp [hr]) _ hex)

/-- `acquire_context` keeps `current_id` valid. -/
theorem cid_acquire_context (now : Int) (oracle : Nat → EnsureOutcome)
    (s : PoolState) (h : current_id_ok s) :
    current_id_ok (MultiTokenManager.acquire_context now oracle s) := by
  unfold MultiTokenManager.acquire_context Database.try_recover_disabled
  dsimp only
  apply cid_acquireGo
  rcases h with h0 | hex
  · exact Or.inl h0
  · right
    rw [recoverRows_fst_eq_map]
    exact exists_id_after_map _ _
      (fun r _ => by
        by_cases hr : recoverCond (now - 300) r = true <;> simp [hr, recoverRow]) _ hex

/-- Disabled row used by the C1 counterexample store. -/
def credDisA : KiroCredentials :=
  { credParseable with
    id := 1, disabled := true, disabled_at := some 0, failure_count := 3 }

/-- Enabled row used by the C1 counterexample store; it will be current. -/
def credEnB : KiroCredentials := { credParseable with id := 2 }

/-- Store with one disabled and one enabled credential. -/
def dbDel : DbState := { rows := [credDisA, credEnB], nextId := 3 }

/-- Counterexample to C1 as stated: constructing the manager over `dbDel` makes
    credential 2 current; deleting credential 2 leaves no enabled credential, so
    `select_highest_priority` finds nothing and `current_id` keeps the deleted
    id 2 — neither 0 nor the id of an existing record. -/
theorem current_id_delete_cex :
    current_id_ok (MultiTokenManager.new dbDel) ∧
    (MultiTokenManager.new dbDel).current_id = 2 ∧
    ¬current_id_ok
      (MultiTokenManager.delete_credential (MultiTokenManager.new dbDel) 2).1 := by
  decide

/-- C1 (amended): `current_id` names an existing record or is 0 after
    construction and after every public operation, except that deleting the
    current credential re-establishes the invariant only when an enabled
    credential remains (otherwise `current_id` keeps the deleted id). -/
theorem current_id_invariant_amended (now : Int) (op : PoolOp) (s : PoolState)
    (hinv : current_id_ok s)
    (hdel : ∀ id, op = PoolOp.deleteCredential id → id = s.current_id →
      s.current_id = 0 ∨ ∃ c ∈ s.db.rows, c.id ≠ id ∧ c.disabled = false) :
    (∀ db, current_id_ok (MultiTokenManager.new db)) ∧
    current_id_ok (applyOp now op s) := by
  constructor
  · intro db
    unfold MultiTokenManager.new
    cases hh : Database.get_highest_priority_available db with
    | none => exact Or.inl rfl
    | some c => exact Or.inr ⟨c, (highest_available_mem db c hh).1, rfl⟩
  · cases op with
    | reportSuccess id => exact cid_report_success s id hinv
    | reportFailure id => exact cid_report_failure s now id hinv
    | switchToNext => exact cid_switch_to_next s hinv
    | setDisabled id flag => exact cid_set_disabled s id flag now hinv
    | setPriority id p => exact cid_set_priority s id p hinv
    | resetAndEnable id => exact cid_reset_and_enable s id hinv
    | addCredential rt am ci cs mid pr => exact cid_add_credential s _ hinv
    | deleteCredential id => exact cid_delete_credential s id hinv (hdel id rfl)
    | acquireContext oracle => exact cid_acquire_context now oracle s hinv

/-- Witness for the amended C1: a failure report against credential 2 of the
    concrete store preserves the invariant. -/
theorem current_id_invariant_amended_witness :
    (∀ db, current_id_ok (MultiTokenManager.new db)) ∧
    current_id_ok
      (applyOp 400 (PoolOp.reportFailure 2) (MultiTokenManager.new dbDel)) :=
  current_id_invariant_amended 400 (PoolOp.reportFailure 2)
    (MultiTokenManager.new dbDel) (by decide)
    (fun _ h => PoolOp.noConfusion h)

/-- In a table with strictly increasing ids, the id determines the row. -/
theorem unique_id_of_pairwise (rows : List KiroCredentials)
    (hpw : rows.Pairwise idLt) (r r0 : KiroCredentials)
    (hr : r ∈ rows) (hr0 : r0 ∈ rows) (he : r.id = r0.id) : r = r0 := by
  induction rows with
  | nil => cases hr
  | cons a l ih =>
    have hpc := List.pairwise_cons.mp hpw
    rcases List.mem_cons.mp hr with rfl | hr2 <;>
      rcases List.mem_cons.mp hr0 with rfl | hr02
    · rfl
    · have hlt : r.id < r0.id := hpc.1 r0 hr02
      rw [he] at hlt
      exact absurd hlt (Nat.lt_irrefl _)
    · have hlt : r0.id < r.id := hpc.1 r hr2
      rw [he] at hlt
      exact absurd hlt (Nat.lt_irrefl _)
    · exact ih hpc.2 hr2 hr02

/-- An id-preserving rewrite of the rows keeps the store well-formed. -/
theorem wf_map_rows (db : DbState) (f : KiroCredentials → KiroCredentials)
    (hid : ∀ r ∈ db.rows, (f r).id = r.id) (hwf : DbWF db) :
    DbWF { rows := db.rows.map f, nextId := db.nextId } := by
  constructor
  · rw [List.pairwise_map]
    exact List.Pairwise.imp_of_mem
      (fun ha hb h => by
        unfold idLt at h ⊢
        rw [hid _ ha, hid _ hb]
        exact h) hwf.1
  · intro c hc
    obtain ⟨r, hr, rfl⟩ := List.mem_map.mp hc
    rw [hid r hr]
    exact hwf.2 r hr

/-- Removing rows keeps the store well-formed. -/
theorem wf_filter_rows (db : DbState) (p : KiroCredentials → Bool)
    (hwf : DbWF db) :
    DbWF { rows := db.rows.filter p, nextId := db.nextId } :=
  ⟨List.Pairwise.sublist (List.filter_sublist _) hwf.1,
   fun c hc => hwf.2 c (List.mem_filter.mp hc).1⟩

/-- Inserting a row under the fresh AUTOINCREMENT id keeps the store
    well-formed. -/
theorem wf_insert_row (db : DbState) (cred : KiroCredentials) (hwf : DbWF db) :
    DbWF { rows := db.rows ++ [{ cred with id := db.nextId }],
           nextId := db.nextId + 1 } := by
  constructor
  · rw [List.pairwise_append]
    refine ⟨hwf.1, List.pairwise_singleton _ _, ?_⟩
    intro a ha b hb
    rw [List.mem_singleton] at hb
    subst hb
    exact hwf.2 a ha
  · intro c hc
    rcases List.mem_append.mp hc with hc | hc
    · exact Nat.lt_trans (hwf.2 c hc) (Nat.lt_succ_self _)
    · rw [List.mem_singleton] at hc
      subst hc
      exact Nat.lt_succ_self _

/-- A rewrite whose result rows all satisfy the failure-disable implication
    keeps the invariant. -/
theorem fdi_map_rows (rows : List KiroCredentials)
    (f : KiroCredentials → KiroCredentials)
    (hP : ∀ r ∈ rows, 3 ≤ (f r).failure_count → (f r).disabled = true) :
    ∀ c ∈ rows.map f, 3 ≤ c.failure_count → c.disabled = true := by
  intro c hc
  obtain ⟨r, hr, rfl⟩ := List.mem_map.mp hc
  exact hP r hr

/-- `report_success` preserves the failure-disable invariant and store WF. -/
theorem fdw_report_success (s : PoolState) (id : Nat)
    (hwf : DbWF s.db) (hinv : failure_disabled_inv s) :
    failure_disabled_inv (MultiTokenManager.report_success s id) ∧
    DbWF (MultiTokenManager.report_success s id).db := by
  constructor
  · exact fdi_map_rows _ _ fun r hr => by
      by_cases h : r.id = id
      · simp [h]
      · simp only [h, if_neg, ite_false]
        exact hinv r hr
  · exact wf_map_rows s.db _ (fun r hr => by by_cases h : r.id = id <;> simp [h]) hwf

/-- Manager `set_disabled` preserves the invariant and WF: disabling forces
    the flag, enabling goes through `reset_and_enable` which zeroes the count. -/
theorem fdw_set_disabled (s : PoolState) (id : Nat) (flag : Bool) (now : Int)
    (hwf : DbWF s.db) (hinv : failure_disabled_inv s) :
    failure_disabled_inv (MultiTokenManager.set_disabled s id flag now) ∧
    DbWF (MultiTokenManager.set_disabled s id flag now).db := by
  unfold MultiTokenManager.set_disabled
  by_cases hf : flag = true
  · rw [if_pos hf]
    constructor
    · exact fdi_map_rows _ _ fun r hr => by
        by_cases h : r.id = id
        · simp [h]
        · simp only [h, if_neg, ite_false]
          exact hinv r hr
    · exact wf_map_rows s.db _ (fun r hr => by by_cases h : r.id = id <;> simp [h]) hwf
  · rw [if_neg hf]
    constructor
    · exact fdi_map_rows _ _ fun r hr => by
        by_cases h : r.id = id
        · simp [h]
        · simp only [h, if_neg, ite_false]
          exact hinv r hr
    · exact wf_map_rows s.db _ (fun r hr => by by_cases h : r.id = id <;> simp [h]) hwf

/-- Manager `reset_and_enable` preserves the invariant and WF. -/
theorem fdw_reset_and_enable (s : PoolState) (id : Nat)
    (hwf : DbWF s.db) (hinv : failure_disabled_inv s) :
    failure_disabled_inv (MultiTokenManager.reset_and_enable s id) ∧
    DbWF (MultiTokenManager.reset_and_enable s id).db := by
  constructor
  · exact fdi_map_rows _ _ fun r hr => by
      by_cases h : r.id = id
      · simp [h]
      · simp only [h, if_neg, ite_false]
        exact hinv r hr
  · exact wf_map_rows s.db _ (fun r hr => by by_cases h : r.id = id <;> simp [h]) hwf

/-- `select_highest_priority` does not touch the store. -/
theorem select_highest_db (s : PoolState) :
    (MultiTokenManager.select_highest_priority s).db = s.db := by
  unfold MultiTokenManager.select_highest_priority
  cases Database.get_highest_priority_available s.db with
  | none => rfl
  | some best =>
    dsimp only
    by_cases hb : best.id ≠ s.current_id
    · rw [if_pos hb]
    · rw [if_neg hb]

/-- `switch_to_next_by_priority` does not touch the store. -/
theorem switch_by_priority_db (s : PoolState) :
    (MultiTokenManager.switch_to_next_by_priority s).db = s.db := by
  unfold MultiTokenManager.switch_to_next_by_priority
  cases Database.get_next_available s.db s.current_id with
  | none => rfl
  | some next => rfl

/-- `switch_to_next` does not touch the store. -/
theorem switch_to_next_db (s : PoolState) :
    (MultiTokenManager.switch_to_next s).1.db = s.db := by
  unfold MultiTokenManager.switch_to_next
  cases Database.get_next_available s.db s.current_id with
  | none => rfl
  | some next => rfl

/-- Manager `set_priority` preserves the invariant and WF. -/
theorem fdw_set_priority (s : PoolState) (id p : Nat)
    (hwf : DbWF s.db) (hinv : failure_disabled_inv s) :
    failure_disabled_inv (MultiTokenManager.set_priority s id p) ∧
    DbWF (MultiTokenManager.set_priority s id p).db := by
  unfold MultiTokenManager.set_priority
  have hdb := select_highest_db
    { s with db := (Database.set_priority s.db id p).1 }
  constructor
  · intro c hc
    rw [hdb] at hc
    revert c hc
    exact fdi_map_rows _ _ fun r hr => by
      by_cases h : r.id = id
      · simp only [h, ite_true]
        exact hinv r hr
      · simp only [h, if_neg, ite_false]
        exact hinv r hr
  · rw [hdb]
    exact wf_map_rows s.db _ (fun r hr => by by_cases h : r.id = id <;> simp [h]) hwf

/-- `add_credential` with an admin-built record preserves the invariant and WF. -/
theorem fdw_add_credential (s : PoolState) (rt : String)
    (am ci cs mid : Option String) (pr : Nat)
    (hwf : DbWF s.db) (hinv : failure_disabled_inv s) :
    failure_disabled_inv
      (MultiTokenManager.add_credential s (adminBuildCredential rt am ci cs mid pr)).1 ∧
    DbWF
      (MultiTokenManager.add_credential s (adminBuildCredential rt am ci cs mid pr)).1.db := by
  unfold MultiTokenManager.add_credential Database.insert_credential
  dsimp only
  have hrows : ∀ c ∈ s.db.rows ++
      [{ adminBuildCredential rt am ci cs mid pr with id := s.db.nextId }],
      3 ≤ c.failure_count → c.disabled = true := by
    intro c hc
    rcases List.mem_append.mp hc with hc | hc
    · exact hinv c hc
    · rw [List.mem_singleton] at hc
      subst hc
      intro hcontra
      exact absurd hcontra (by simp [adminBuildCredential])
  have hwf2 := wf_insert_row s.db (adminBuildCredential rt am ci cs mid pr) hwf
  by_cases hone :
      Database.count_credentials
        { rows := s.db.rows ++
            [{ adminBuildCredential rt am ci cs mid pr with id := s.db.nextId }],
          nextId := s.db.nextId + 1 } = 1
  · rw [if_pos hone]
    exact ⟨hrows, hwf2⟩
  · rw [if_neg hone]
    exact ⟨hrows, hwf2⟩

/-- `delete_credential` preserves the invariant and WF. -/
theorem fdw_delete_credential (s : PoolState) (id : Nat)
    (hwf : DbWF s.db) (hinv : failure_disabled_inv s) :
    failure_disabled_inv (MultiTokenManager.delete_credential s id).1 ∧
    DbWF (MultiTokenManager.delete_credential s id).1.db := by
  unfold MultiTokenManager.delete_credential Database.delete_credential
  dsimp only
  have hrows : ∀ c ∈ s.db.rows.filter (fun r => r.id ≠ id),
      3 ≤ c.failure_count → c.disabled = true :=
    fun c hc => hinv c (List.mem_filter.mp hc).1
  have hwf2 := wf_filter_rows s.db (fun r => decide (r.id ≠ id)) hwf
  by_cases hdel : (s.db.rows.any fun r => r.id == id) = true
  · rw [if_pos hdel]
    by_cases hcur : id = s.current_id
    · rw [if_pos hcur]
      have hdb := select_highest_db
        { s with db := { rows := s.db.rows.filter fun r => r.id ≠ id,
                         nextId := s.db.nextId } }
      constructor
      · intro c hc
        rw [hdb] at hc
        exact hrows c hc
      · rw [hdb]
        exact hwf2
    · rw [if_neg hcur]
      exact ⟨hrows, hwf2⟩
  · rw [if_neg hdel]
    exact ⟨hrows, hwf2⟩

/-- `report_failure` preserves the invariant and WF: a count reaching the
    threshold is immediately followed by the disable write. -/
theorem fdw_report_failure (s : PoolState) (now : Int) (id : Nat)
    (hwf : DbWF s.db) (hinv : failure_disabled_inv s) :
    failure_disabled_inv (MultiTokenManager.report_failure s now id).1 ∧
    DbWF (MultiTokenManager.report_failure s now id).1.db := by
  have hwf1 : DbWF (Database.increment_failure_count s.db id).1 :=
    wf_map_rows s.db _ (fun r hr => by by_cases h : r.id = id <;> simp [h]) hwf
  have hwf2 : DbWF (Database.set_disabled
      (Database.increment_failure_count s.db id).1 id true now).1 :=
    wf_map_rows (Database.increment_failure_count s.db id).1 _
      (fun r hr => by by_cases h : r.id = id <;> simp [h]) hwf1
  have hinv2 : ∀ c ∈ (Database.set_disabled
      (Database.increment_failure_count s.db id).1 id true now).1.rows,
      3 ≤ c.failure_count → c.disabled = true := by
    apply fdi_map_rows
    intro r1 hr1
    by_cases h1 : r1.id = id
    · simp [h1]
    · simp only [h1, if_neg, ite_false]
      obtain ⟨r, hr, rfl⟩ := List.mem_map.mp hr1
      by_cases h2 : r.id = id
      · exfalso
        apply h1
        simp [h2]
      · simp only [h2, if_neg, ite_false]
        exact hinv r hr
  unfold MultiTokenManager.report_failure
  cases hopt : (Database.increment_failure_count s.db id).2 with
  | none =>
    have heq : Database.increment_failure_count s.db id =
        ((Database.increment_failure_count s.db id).1, none) := by
      rw [← hopt]
    rw [heq]
    have hfind : s.db.rows.find? (fun r => r.id == id) = none := by
      have : (Database.increment_failure_count s.db id).2 =
          (s.db.rows.find? fun r => r.id == id).map fun r => r.failure_count + 1 := rfl
      rw [this] at hopt
      cases hf : s.db.rows.find? fun r => r.id == id
      · rfl
      · rw [hf] at hopt
        cases hopt
    refine ⟨?_, hwf1⟩
    apply fdi_map_rows
    intro r hr
    by_cases h : r.id = id
    · exfalso
      have := List.find?_eq_none.mp hfind r hr
      simp [h] at this
    · simp only [h, if_neg, ite_false]
      exact hinv r hr
  | some cnt =>
    have heq : Database.increment_failure_count s.db id =
        ((Database.increment_failure_count s.db id).1, some cnt) := by
      rw [← hopt]
    rw [heq]
    dsimp only
    by_cases hcnt : cnt ≥ 3
    · rw [if_pos hcnt]
      cases hh : Database.get_highest_priority_available
          (Database.set_disabled
            (Database.increment_failure_count s.db id).1 id true now).1 with
      | none => exact ⟨hinv2, hwf2⟩
      | some next => exact ⟨hinv2, hwf2⟩
    · rw [if_neg hcnt]
      obtain ⟨r0, hfind⟩ : ∃ r0,
          s.db.rows.find? (fun r => r.id == id) = some r0 := by
        have : (Database.increment_failure_count s.db id).2 =
            (s.db.rows.find? fun r => r.id == id).map fun r => r.failure_count + 1 := rfl
        rw [this] at hopt
        cases hf : s.db.rows.find? fun r => r.id == id with
        | none =>
          rw [hf] at hopt
          cases hopt
        | some r0 => exact ⟨r0, rfl⟩
      have hr0mem : r0 ∈ s.db.rows := List.mem_of_find?_eq_some hfind
      have hr0id : r0.id = id := by
        have := List.find?_some hfind
        simpa using this
      have hcnt0 : cnt = r0.failure_count + 1 := by
        have : (Database.increment_failure_count s.db id).2 =
            (s.db.rows.find? fun r => r.id == id).map fun r => r.failure_count + 1 := rfl
        rw [this, hfind] at hopt
        simpa using hopt.symm
      refine ⟨?_, hwf1⟩
      apply fdi_map_rows
      intro r hr
      by_cases h : r.id = id
      · have hr_eq : r = r0 :=
          unique_id_of_pairwise s.db.rows hwf.1 r r0 hr hr0mem (h.trans hr0id.symm)
      
        subst hr_eq
        simp only [h, ite_true]
        intro hcontra
        exfalso
        rw [hcnt0] at hcnt
        exact hcnt (by simpa using hcontra)
      · simp only [h, if_neg, ite_false]
        exact hinv r hr

/-- The selection block of `acquire_context` never touches the store. -/
theorem selectCred_db (s s1 : PoolState) (id : Nat) (c : KiroCredentials)
    (hsel : MultiTokenManager.selectCred s = some (id, c, s1)) : s1.db = s.db := by
  unfold MultiTokenManager.selectCred at hsel
  cases hg : Database.get_credential s.db s.current_id with
  | some c0 =>
    rw [hg] at hsel
    dsimp only at hsel
    by_cases hd : (!c0.disabled) = true
    · rw [if_pos hd] at hsel
      simp only [Option.some.injEq, Prod.mk.injEq] at hsel
      rw [← hsel.2.2]
    · rw [if_neg hd] at hsel
      cases hh : Database.get_highest_priority_available s.db with
      | none => rw [hh] at hsel; cases hsel
      | some c2 =>
        rw [hh] at hsel
        simp only [Option.some.injEq, Prod.mk.injEq] at hsel
        rw [← hsel.2.2]
  | none =>
    rw [hg] at hsel
    dsimp only at hsel
    cases hh : Database.get_highest_priority_available s.db with
    | none => rw [hh] at hsel; cases hsel
    | some c2 =>
      rw [hh] at hsel
      simp only [Option.some.injEq, Prod.mk.injEq] at hsel
      rw [← hsel.2.2]

/-- A persisted refresh snapshot (same id, new tokens) preserves the invariant
    and WF: the token fields do not touch `failure_count` or `disabled`. -/
theorem fdw_update_refreshed (s1 : PoolState) (id : Nat)
    (cur : KiroCredentials) (r : RefreshResp)
    (hcur : Database.get_credential s1.db id = some cur)
    (hwf : DbWF s1.db) (hinv : failure_disabled_inv s1) :
    failure_disabled_inv
      { s1 with db := (Database.update_credential s1.db (applyRefreshResp cur r)).1 } ∧
    DbWF (Database.update_credential s1.db (applyRefreshResp cur r)).1 := by
  have hcmem : cur ∈ s1.db.rows := List.mem_of_find?_eq_some hcur
  have hcp : 3 ≤ cur.failure_count → cur.disabled = true := hinv cur hcmem
  constructor
  · apply fdi_map_rows
    intro row hrow
    by_cases h : row.id = (applyRefreshResp cur r).id
    · simp only [h, ite_true]
      intro hcontra
      have hfc : ({ applyRefreshResp cur r with id := row.id }).failure_count =
          cur.failure_count := rfl
      have hdis : ({ applyRefreshResp cur r with id := row.id }).disabled =
          cur.disabled := rfl
      rw [hfc] at hcontra
      rw [hdis]
      exact hcp hcontra
    · simp only [h, if_neg, ite_false]
      exact hinv row hrow
  · exact wf_map_rows s1.db _
      (fun row hrow => by
        by_cases h : row.id = (applyRefreshResp cur r).id <;> simp [h]) hwf

/-- The retry loop of `acquire_context` preserves the invariant and WF. -/
theorem fdw_acquireGo (oracle : Nat → EnsureOutcome) (fuel : Nat) (s : PoolState)
    (hwf : DbWF s.db) (hinv : failure_disabled_inv s) :
    failure_disabled_inv (MultiTokenManager.acquireGo oracle fuel s) ∧
    DbWF (MultiTokenManager.acquireGo oracle fuel s).db := by
  induction fuel generalizing s with
  | zero => exact ⟨hinv, hwf⟩
  | succ fuel ih =>
    unfold MultiTokenManager.acquireGo
    cases hsel : MultiTokenManager.selectCred s with
    | none => exact ⟨hinv, hwf⟩
    | some trip =>
      obtain ⟨id, c, s1⟩ := trip
      have hdb := selectCred_db s s1 id c hsel
      have hwf1 : DbWF s1.db := by rw [hdb]; exact hwf
      have hinv1 : failure_disabled_inv s1 := by
        intro c2 hc2
        rw [hdb] at hc2
        exact hinv c2 hc2
      dsimp only
      have hstep : ∀ s2 : PoolState,
          failure_disabled_inv s2 → DbWF s2.db →
          failure_disabled_inv
            (if (oracle fuel).ok = true then s2
             else MultiTokenManager.acquireGo oracle fuel
               (MultiTokenManager.switch_to_next_by_priority s2)) ∧
          DbWF
            (if (oracle fuel).ok = true then s2
             else MultiTokenManager.acquireGo oracle fuel
               (MultiTokenManager.switch_to_next_by_priority s2)).db := by
        intro s2 hi2 hw2
        by_cases hok : (oracle fuel).ok = true
        · rw [if_pos hok]
          exact ⟨hi2, hw2⟩
        · rw [if_neg hok]
          have hdb2 := switch_by_priority_db s2
          refine ih _ ?_ ?_
          · rw [hdb2]
            exact hw2
          · intro c2 hc2
            rw [hdb2] at hc2
            exact hi2 c2 hc2
      cases hresp : (oracle fuel).resp with
      | none =>
        dsimp only
        exact hstep s1 hinv1 hwf1
      | some r =>
        dsimp only
        cases hcur : Database.get_credential s1.db id with
        | none => exact hstep s1 hinv1 hwf1
        | some cur =>
          have h2 := fdw_update_refreshed s1 id cur r hcur hwf1 hinv1
          exact hstep _ h2.1 h2.2

/-- `acquire_context` preserves the invariant and WF. -/
theorem fdw_acquire_context (now : Int) (oracle : Nat → EnsureOutcome)
    (s : PoolState) (hwf : DbWF s.db) (hinv : failure_disabled_inv s) :
    failure_disabled_inv (MultiTokenManager.acquire_context now oracle s) ∧
    DbWF (MultiTokenManager.acquire_context now oracle s).db := by
  unfold MultiTokenManager.acquire_context Database.try_recover_disabled
  dsimp only
  apply fdw_acquireGo
  · constructor
    · rw [recoverRows_fst_eq_map]
      rw [List.pairwise_map]
      exact List.Pairwise.imp_of_mem
        (fun ha hb h => by
          unfold idLt at h ⊢
          have e1 : ∀ x : KiroCredentials,
              (if recoverCond (now - 300) x then recoverRow x else x).id = x.id := by
            intro x
            by_cases hx : recoverCond (now - 300) x = true <;> simp [hx, recoverRow]
          rw [e1, e1]
          exact h) hwf.1
    · intro c2 hc2
      rw [recoverRows_fst_eq_map] at hc2
      obtain ⟨r, hr, rfl⟩ := List.mem_map.mp hc2
      have e1 : (if recoverCond (now - 300) r then recoverRow r else r).id = r.id := by
        by_cases hx : recoverCond (now - 300) r = true <;> simp [hx, recoverRow]
      rw [e1]
      exact hwf.2 r hr
  · intro c2 hc2
    rw [recoverRows_fst_eq_map] at hc2
    obtain ⟨r, hr, rfl⟩ := List.mem_map.mp hc2
    by_cases hx : recoverCond (now - 300) r = true
    · simp [hx, recoverRow]
    · simp only [hx, if_neg, ite_false]
      exact hinv r hr

/-- C2: in every state reachable through the pool-manager operations (failure
    and success reports, admin disable/enable, reset, add, delete, switches and
    the acquire path with its cool-down recovery), a stored credential whose
    failure count reached 3 is disabled; store well-formedness is preserved
    alongside, so the steps chain. -/
theorem failure_disable_invariant (now : Int) (op : PoolOp) (s : PoolState)
    (hwf : DbWF s.db) (hinv : failure_disabled_inv s) :
    failure_disabled_inv (applyOp now op s) ∧ DbWF (applyOp now op s).db := by
  cases op with
  | reportSuccess id => exact fdw_report_success s id hwf hinv
  | reportFailure id => exact fdw_report_failure s now id hwf hinv
  | switchToNext =>
    have hdb := switch_to_next_db s
    constructor
    · intro c hc
      rw [show (applyOp now PoolOp.switchToNext s).db = s.db from hdb] at hc
      exact hinv c hc
    · rw [show (applyOp now PoolOp.switchToNext s).db = s.db from hdb]
      exact hwf
  | setDisabled id flag => exact fdw_set_disabled s id flag now hwf hinv
  | setPriority id p => exact fdw_set_priority s id p hwf hinv
  | resetAndEnable id => exact fdw_reset_and_enable s id hwf hinv
  | addCredential rt am ci cs mid pr =>
    exact fdw_add_credential s rt am ci cs mid pr hwf hinv
  | deleteCredential id => exact fdw_delete_credential s id hwf hinv
  | acquireContext oracle => exact fdw_acquire_context now oracle s hwf hinv

/-- Witness for C2: a third failure report against the current credential of the
    concrete store keeps the invariant (and the store well-formed). -/
theorem failure_disable_invariant_witness :
    failure_disabled_inv
      (applyOp 400 (PoolOp.reportFailure 2) (MultiTokenManager.new dbDel)) ∧
    DbWF (applyOp 400 (PoolOp.reportFailure 2) (MultiTokenManager.new dbDel)).db :=
  failure_disable_invariant 400 (PoolOp.reportFailure 2)
    (MultiTokenManager.new dbDel) (by decide) (by decide)
